import Mathlib

/-! Verification of the 2048-style move-resolution engine.

Shallow embedding of the game core of this repository (classes `Tile`,
`GameState`, `GameAnimationController` of the main script): tiles, the
board with its recursive gravitation/merge algorithm, the win/loss status
machine, and the animation snapshot queue.

Modelling conventions:
* JS `null` becomes `Option.none` (`level : Option Nat`,
  `prevIndex prevLevel : Option (List Nat)`).
* `Math.random`-driven draws are passed in explicitly: `Tile.spawn` takes
  the result of `MathUtils.randomInRange(10)`, and `GameState.spawnTile`
  takes the board index finally accepted by its rejection-sampling loop.
* Mutation becomes explicit state passing; methods that mutate two tiles
  return the pair (self, other).
* The board score is a `Nat`: it starts at 0 and only ever has
  `Math.pow(2, level)` added, so it stays a non-negative integer.
-/

set_option maxHeartbeats 1000000

/-- Enum for directions (`const Direction`). -/
inductive Direction where
  | Right
  | Up
  | Left
  | Down
deriving DecidableEq, Repr

/-- Enum for game status (`const GameStatus`). -/
inductive GameStatus where
  | InProgress
  | Won
  | Continued
  | Lost
deriving DecidableEq, Repr

/-- Enum for tile status (`const TileStatus`). -/
inductive TileStatus where
  | Empty
  | Spawned
  | Still
  | Moved
  | Merged
deriving DecidableEq, Repr

instance : BEq GameStatus := ⟨fun a b => decide (a = b)⟩

/-- Represents a tile (`class Tile`).  The constructor `new Tile(index)`
sets `level`, `prevIndex`, `prevLevel` to `null` and the status to Empty. -/
structure Tile where
  index : Nat
  level : Option Nat
  prevIndex : Option (List Nat)
  prevLevel : Option (List Nat)
  status : TileStatus
deriving DecidableEq, Repr

/-- `new Tile(index)`. -/
def Tile.init (index : Nat) : Tile :=
  { index := index, level := none, prevIndex := none, prevLevel := none,
    status := TileStatus.Empty }

instance : Inhabited Tile := ⟨Tile.init 0⟩

namespace Tile

/-- `Tile.reset`: resets tile to an empty state. -/
def reset (t : Tile) : Tile :=
  { t with level := none, prevIndex := none, prevLevel := none,
           status := TileStatus.Empty }

/-- `Tile.isEmpty` getter. -/
def isEmpty (t : Tile) : Bool :=
  t.status == TileStatus.Empty

/-- `Tile.ableToMerge` getter. -/
def ableToMerge (t : Tile) : Bool :=
  t.status != TileStatus.Merged && t.status != TileStatus.Empty

/-- `Tile.scoreValue` getter: `null` when empty, otherwise
`Math.pow(2, level)`.  A non-empty tile whose level is `null` would give
`Math.pow(2, null) = 1` in JS, matched here by `getD 0`. -/
def scoreValue (t : Tile) : Option Nat :=
  if t.isEmpty then none else some (2 ^ t.level.getD 0)

/-- `Tile.prepareForMove`: snapshot index/level into singleton history
lists and set status Still, for non-empty tiles.  The JS stores
`[this.level]`; a `null` level (impossible for a non-empty tile in any
reachable state) is recorded as `0` here via `getD`. -/
def prepareForMove (t : Tile) : Tile :=
  if !t.isEmpty then
    { t with prevIndex := some [t.index], prevLevel := some [t.level.getD 0],
             status := TileStatus.Still }
  else t

/-- `Tile.spawn`: level is `1 + Math.floor(MathUtils.randomInRange(10)/9)`,
level 1 with 90% chance, level 2 with 10% chance; `draw` stands for the
result of `randomInRange(10)`, a uniform draw from `[0, 10)`. -/
def spawn (t : Tile) (draw : Nat) : Tile :=
  { t with level := some (1 + draw / 9), status := TileStatus.Spawned }

/-- `Tile.mergeWith(tile)`: increases the other tile's level, pushes this
tile's first history entries onto the other's, marks the other Merged and
resets itself.  Returns (self, other) after the call.  The `getD`s cover
only states the JS would crash on (pushing onto a `null` history). -/
def mergeWith (t other : Tile) : Tile × Tile :=
  if !t.isEmpty then
    (t.reset,
     { other with
        level := some (other.level.getD 0 + 1),
        prevIndex := some (other.prevIndex.getD [] ++ [(t.prevIndex.getD []).headD 0]),
        prevLevel := some (other.prevLevel.getD [] ++ [(t.prevLevel.getD []).headD 0]),
        status := TileStatus.Merged })
  else (t, other)

/-- `Tile.moveTo(tile)`: overwrites the other tile's level and history
with this tile's, marks it Moved and resets itself.  Returns
(self, other) after the call. -/
def moveTo (t other : Tile) : Tile × Tile :=
  if !t.isEmpty then
    (t.reset,
     { other with
        level := t.level,
        prevLevel := t.prevLevel,
        prevIndex := t.prevIndex,
        status := TileStatus.Moved })
  else (t, other)

/-- `Tile.equals(tile)`: structural equality on index and level only. -/
def equals (t other : Tile) : Bool :=
  t.index == other.index && t.level == other.level

/-- `Tile.clone`: `new Tile(this.index)` with level, histories and status
copied over — every field, so it is the identity on the value model. -/
def clone (t : Tile) : Tile :=
  { index := t.index, level := t.level, prevLevel := t.prevLevel,
    prevIndex := t.prevIndex, status := t.status }

end Tile

/-- `this.tiles[i]` array access (always in bounds in the guarded uses of
the source; out of range yields the default empty tile). -/
def tileAt (tiles : List Tile) (i : Nat) : Tile :=
  tiles.getD i default

/-- Represents game state (`class GameState`). -/
structure GameState where
  rows : Nat
  columns : Nat
  targetTileLevel : Nat
  tiles : List Tile
  score : Nat
  status : GameStatus
deriving DecidableEq, Repr

namespace GameState

/-- `GameState.boardSize` getter. -/
def boardSize (s : GameState) : Nat :=
  s.rows * s.columns

/-- `GameState.isInsideBoard(index)`; the argument may be a negative
index produced by `index + indexChange`, hence `Int`. -/
def isInsideBoard (s : GameState) (index : Int) : Bool :=
  decide (0 ≤ index) && decide (index < (s.boardSize : Int))

end GameState

/-- `GameState.areNeighboring(index1, index2)`, with `this.columns` made
an explicit first argument (the recursive worker below is outside the
structure).  `dRow`/`dCol` are differences of floor-divisions / modulos,
computed in `Int` since they can be negative. -/
def areNeighboring (columns : Nat) (index1 index2 : Nat) : Bool :=
  let dRow : Int := (index2 / columns : Nat) - (index1 / columns : Nat)
  let dCol : Int := (index2 % columns : Nat) - (index1 % columns : Nat)
  (dRow.natAbs == 1 && dCol.natAbs == 0) || (dRow.natAbs == 0 && dCol.natAbs == 1)

namespace GameState

/-- `GameState.isFull` getter: no empty tile among indices
`0 .. boardSize-1` (the JS loop with early `break` is an `all`). -/
def isFull (s : GameState) : Bool :=
  (List.range s.boardSize).all fun i => !(tileAt s.tiles i).isEmpty

/-- `GameState.clone`: `new GameState(rows, columns, targetTileLevel)`
(whose two random spawns land in the `tiles` array that is immediately
replaced below, so they cannot influence the result; its `status` field
stays `InProgress` and its `score` is overwritten), then `score` copied
and `tiles` rebuilt as `boardSize` clones of this board's tiles. -/
def clone (s : GameState) : GameState :=
  { rows := s.rows, columns := s.columns, targetTileLevel := s.targetTileLevel,
    tiles := (List.range s.boardSize).map fun i => (tileAt s.tiles i).clone,
    score := s.score, status := GameStatus.InProgress }

/-- `GameState.equals(state)`: score, dimensions, and tile-wise
`Tile.equals` over indices `0 .. boardSize-1`. -/
def equals (s other : GameState) : Bool :=
  s.score == other.score && s.rows == other.rows && s.columns == other.columns &&
    (List.range s.boardSize).all fun i => (tileAt s.tiles i).equals (tileAt other.tiles i)

/-- `GameState.hasAchievedGoal` getter: some tile with
`level >= targetTileLevel` (JS coerces a `null` level to 0). -/
def hasAchievedGoal (s : GameState) : Bool :=
  (List.range s.boardSize).any fun i =>
    decide (s.targetTileLevel ≤ (tileAt s.tiles i).level.getD 0)

/-- `GameState.spawnTile`: if the board is not full, spawn on the tile at
the first uniformly random index that is empty.  `spawnIndex` stands for
the index finally accepted by the rejection-sampling `do .. while` loop,
so a draw that is out of range or points at an occupied tile is not an
outcome of the loop; such an invalid oracle value leaves the state
unchanged here.  `spawnDraw` is the level draw passed to `Tile.spawn`. -/
def spawnTile (s : GameState) (spawnIndex spawnDraw : Nat) : GameState :=
  if !s.isFull then
    if spawnIndex < s.boardSize && (tileAt s.tiles spawnIndex).isEmpty then
      { s with tiles := s.tiles.set spawnIndex ((tileAt s.tiles spawnIndex).spawn spawnDraw) }
    else s
  else s

end GameState

/-- The guard of `GameState.gravitateTile`:
`isInsideBoard(nextIndex) && areNeighboring(index, nextIndex)`, with the
board dimensions explicit. -/
def stepOK (rows columns : Nat) (indexChange : Int) (index : Nat) : Prop :=
  (0 ≤ (index : Int) + indexChange ∧ (index : Int) + indexChange < (rows * columns : Int)) ∧
    areNeighboring columns index (((index : Int) + indexChange).toNat) = true

instance (rows columns : Nat) (indexChange : Int) (index : Nat) :
    Decidable (stepOK rows columns indexChange index) := by
  unfold stepOK; infer_instance

/-- `index + indexChange` as a `Nat`, valid under `stepOK`. -/
def nextNat (index : Nat) (indexChange : Int) : Nat :=
  ((index : Int) + indexChange).toNat

/-- The merge eligibility test of `gravitateTile`:
`tile.ableToMerge && nextTile.ableToMerge && tile.level == nextTile.level`. -/
def mergeCond (tile nextTile : Tile) : Bool :=
  tile.ableToMerge && nextTile.ableToMerge && tile.level == nextTile.level

/-- Structural-recursion core of `GameState.gravitateTile(index,
indexChange)`, with the mutated receiver made explicit as
`(tiles, score)` and the recursion parameters `rows`, `columns`,
`indexChange` lifted out.  The `gas` argument is termination fuel only:
the guarded recursion steps strictly toward a board edge along
`index + indexChange`, so the fuel `rows * columns + index + 1` passed by
the `gravitateTile` wrapper below can never run out (every theorem about
the pass carries the bound making the `0` branch unreachable).
The third result component is a ghost list recording, for each merge
performed, the merged tile's new level (the score is increased by `2 ^`
that level); it exists only for the score-accounting theorems and does
not influence tiles or score. -/
def gravitateTileGas (rows columns : Nat) (indexChange : Int) :
    Nat → Nat → List Tile → Nat → List Tile × Nat × List Nat
  | 0, _, tiles, score => (tiles, score, [])
  | gas + 1, index, tiles, score =>
    if stepOK rows columns indexChange index then
      let nextIndex := nextNat index indexChange
      -- if the neighbor slot is occupied, first resolve its own slide
      let r₁ :=
        if (tileAt tiles nextIndex).isEmpty then (tiles, score, ([] : List Nat))
        else gravitateTileGas rows columns indexChange gas nextIndex tiles score
      let tile := tileAt r₁.1 index
      let nextTile := tileAt r₁.1 nextIndex
      if nextTile.isEmpty then
        -- tile.moveTo(nextTile), then continue sliding from the new position
        let p := tile.moveTo nextTile
        let r₂ := gravitateTileGas rows columns indexChange gas nextIndex
                    ((r₁.1.set index p.1).set nextIndex p.2) r₁.2.1
        (r₂.1, r₂.2.1, r₁.2.2 ++ r₂.2.2)
      else if mergeCond tile nextTile then
        -- tile.mergeWith(nextTile); this.score += nextTile.scoreValue
        let p := tile.mergeWith nextTile
        ((r₁.1.set index p.1).set nextIndex p.2,
         r₁.2.1 + p.2.scoreValue.getD 0,
         r₁.2.2 ++ [p.2.level.getD 0])
      else r₁
    else (tiles, score, [])

/-- `GameState.gravitateTile(index, indexChange)` (see
`gravitateTileGas` for the shape of the result). -/
def gravitateTile (rows columns : Nat) (indexChange : Int) (index : Nat)
    (tiles : List Tile) (score : Nat) : List Tile × Nat × List Nat :=
  gravitateTileGas rows columns indexChange (rows * columns + index + 1)
    index tiles score

/-- The `indexChange` table of `GameState.gravitate`:
Right = +1, Up = -columns, Left = -1, Down = +columns. -/
def Direction.indexChange (direction : Direction) (columns : Nat) : Int :=
  match direction with
  | Direction.Right => 1
  | Direction.Up => -(columns : Int)
  | Direction.Left => -1
  | Direction.Down => (columns : Int)

namespace GameState

/-- `GameState.gravitate(direction)` together with the ghost merge list
of all `gravitateTile` calls: map the direction to its index change,
prepare every tile, then resolve every index in ascending order. -/
def gravitateFull (s : GameState) (direction : Direction) : GameState × List Nat :=
  let indexChange : Int := direction.indexChange s.columns
  let prepared := s.tiles.map Tile.prepareForMove
  let r := (List.range s.boardSize).foldl
    (fun acc i =>
      let g := gravitateTile s.rows s.columns indexChange i acc.1 acc.2.1
      (g.1, g.2.1, acc.2.2 ++ g.2.2))
    (prepared, s.score, ([] : List Nat))
  ({ s with tiles := r.1, score := r.2.1 }, r.2.2)

/-- `GameState.gravitate(direction)`. -/
def gravitate (s : GameState) (direction : Direction) : GameState :=
  (s.gravitateFull direction).1

/-- The new levels of the tiles produced by the merges of
`gravitate(direction)`, in the order the merges are performed. -/
def gravitateEvents (s : GameState) (direction : Direction) : List Nat :=
  (s.gravitateFull direction).2

/-- The boolean `GameState.move(direction)` returns: the gravitated board
is not `equals` to the pre-move clone.  Extracted as its own definition
because `isGameOver` reads exactly this flag from `this.clone().move(dir)`
and discards the clone (with its spawn and status update); defining
`isGameOver` through the flag breaks the source's mutual recursion
`move → updateStatus → isGameOver → move`, none of whose discarded
side effects are observable. -/
def moveFlag (s : GameState) (direction : Direction) : Bool :=
  !((s.gravitate direction).equals s.clone)

/-- `GameState.isGameOver` getter: the board is full and no direction's
move on a clone reports a change (`for (let dir in Direction)` iterates
Right, Up, Left, Down). -/
def isGameOver (s : GameState) : Bool :=
  s.isFull &&
    ([Direction.Right, Direction.Up, Direction.Left, Direction.Down].all
      fun d => !(s.clone.moveFlag d))

/-- `GameState.updateStatus`. -/
def updateStatus (s : GameState) : GameState :=
  if s.isGameOver then { s with status := GameStatus.Lost }
  else if s.status == GameStatus.InProgress && s.hasAchievedGoal then
    { s with status := GameStatus.Won }
  else if s.status == GameStatus.Won then { s with status := GameStatus.Continued }
  else s

/-- `GameState.move(direction)`: clone, gravitate in place, and on a
change spawn one tile and update the status.  Returns the new state
(the receiver after the call) and the changed flag. -/
def move (s : GameState) (direction : Direction) (spawnIndex spawnDraw : Nat) :
    GameState × Bool :=
  let oldState := s.clone
  let afterGrav := s.gravitate direction
  if !(afterGrav.equals oldState) then
    (((afterGrav.spawnTile spawnIndex spawnDraw).updateStatus), true)
  else (afterGrav, false)

end GameState

/-- The `GameState` constructor: `rows * columns` fresh tiles, score 0,
status InProgress, then two `spawnTile` calls whose accepted index / level
draws are passed explicitly. -/
def GameState.build (rows columns targetTileLevel : Nat)
    (i₁ r₁ i₂ r₂ : Nat) : GameState :=
  let base : GameState :=
    { rows := rows, columns := columns, targetTileLevel := targetTileLevel,
      tiles := (List.range (rows * columns)).map Tile.init,
      score := 0, status := GameStatus.InProgress }
  (base.spawnTile i₁ r₁).spawnTile i₂ r₂

/-- The states of the board object over a game: the constructor followed by
any sequence of `move` calls, each with its spawn draws. -/
inductive Reachable : GameState → Prop where
  | init (rows columns targetTileLevel i₁ r₁ i₂ r₂ : Nat) :
      Reachable (GameState.build rows columns targetTileLevel i₁ r₁ i₂ r₂)
  | step (s : GameState) (d : Direction) (i r : Nat) :
      Reachable s → Reachable ((s.move d i r).1)

/-! ### Specification-side predicates for the gravitation pass

`chain` is the list of board indices the recursion of `gravitateTile`
can visit from a start index: the index itself, then repeatedly
`index + indexChange` while the source's guard
(`isInsideBoard && areNeighboring`, i.e. `stepOK`) allows the step.
`canAct` says the single step of `gravitateTile` at an index would do
something (move into an empty neighbor, or merge); `frozen` says no index
on the chain can act.  `tileShape` and `gravInv` make up the inductive
invariant of one gravitation pass. -/

/-- The indices reachable from `index` along `indexChange` steps. -/
def chain (rows columns : Nat) (indexChange : Int) (index : Nat) : List Nat :=
  index ::
    (if h : stepOK rows columns indexChange index then
      chain rows columns indexChange (nextNat index indexChange)
    else [])
termination_by if 0 ≤ indexChange then rows * columns - index else index
decreasing_by
  have h1 := h.1.1
  have h2 := h.1.2
  have h3 : ((index : Int) + indexChange).toNat ≠ index := by
    intro he
    have hn := h.2
    rw [he] at hn
    simp [areNeighboring] at hn
  rw [nextNat]
  split <;> omega

/-- The step of `gravitateTile` at `i` would change the board: the guard
holds and either the tile could move into an empty neighbor or the merge
condition holds. -/
def canAct (rows columns : Nat) (indexChange : Int) (ts : List Tile) (i : Nat) : Prop :=
  stepOK rows columns indexChange i ∧
    (((tileAt ts i).isEmpty = false ∧
        (tileAt ts (nextNat i indexChange)).isEmpty = true) ∨
      mergeCond (tileAt ts i) (tileAt ts (nextNat i indexChange)) = true)

/-- No index on the chain from `p` can act: the slide of `p`'s line
segment is fully resolved. -/
def frozen (rows columns : Nat) (indexChange : Int) (ts : List Tile) (p : Nat) : Prop :=
  ∀ r ∈ chain rows columns indexChange p, ¬ canAct rows columns indexChange ts r

/-- Shape of a tile's history during a gravitation pass (after
`prepareForMove`): a Still or Moved tile carries the singleton pre-turn
history, a Merged tile carries exactly two entries, equal pre-turn levels,
and a level exactly one above them; Spawned cannot occur. -/
def tileShape (t : Tile) : Prop :=
  match t.status with
  | TileStatus.Empty => True
  | TileStatus.Spawned => False
  | TileStatus.Still =>
      ∃ j l, t.prevIndex = some [j] ∧ t.prevLevel = some [l] ∧ t.level.getD 0 = l
  | TileStatus.Moved =>
      ∃ j l, t.prevIndex = some [j] ∧ t.prevLevel = some [l] ∧ t.level.getD 0 = l
  | TileStatus.Merged =>
      ∃ j₁ j₂ l, t.prevIndex = some [j₁, j₂] ∧ t.prevLevel = some [l, l] ∧
        t.level = some (l + 1)

/-- The inductive invariant of a gravitation pass: every tile has a legal
shape, and the chain of every Merged tile is fully resolved (which is what
keeps a merged tile from moving or merging again within the pass). -/
def gravInv (rows columns : Nat) (indexChange : Int) (ts : List Tile) : Prop :=
  (∀ i, tileShape (tileAt ts i)) ∧
    (∀ m, (tileAt ts m).status = TileStatus.Merged →
      frozen rows columns indexChange ts m)

/-- The termination measure of the recursion of `gravitateTile`: distance
to the board edge in the direction of `indexChange`. -/
def gMeasure (rows columns : Nat) (indexChange : Int) (index : Nat) : Nat :=
  if 0 ≤ indexChange then rows * columns - index else index

/-- What one `gravitateTile` call starting at `index` guarantees, stated
of the resulting tile list `res` relative to the input `ts`: the length
and everything off the chain of `index` are untouched, the invariant is
preserved, and the chain of `index` is fully resolved. -/
def gravPost (rows columns : Nat) (indexChange : Int) (ts res : List Tile)
    (index : Nat) : Prop :=
  res.length = ts.length ∧
  (∀ q, q ∉ chain rows columns indexChange index → tileAt res q = tileAt ts q) ∧
  gravInv rows columns indexChange res ∧
  frozen rows columns indexChange res index

/-- The induction statement for one `gravitateTile` call. -/
def gravSpec (rows columns : Nat) (indexChange : Int) (gas index : Nat)
    (ts : List Tile) (sc : Nat) : Prop :=
  gravPost rows columns indexChange ts
    (gravitateTileGas rows columns indexChange gas index ts sc).1 index

/-- An Empty tile carries no leftover data (`Tile.reset` and the tile
constructor null all three fields). -/
def tileClean (t : Tile) : Prop :=
  t.status = TileStatus.Empty →
    t.level = none ∧ t.prevIndex = none ∧ t.prevLevel = none

/-- Tiles whose status is Empty carry no leftover history (preserved by
every step of the pass). -/
def emptyClean (ts : List Tile) : Prop :=
  ∀ i, tileClean (tileAt ts i)

/-- The history invariant of reachable tiles: Empty tiles are fully
nulled, Spawned tiles have null history (`Tile.spawn` does not touch
`prevIndex`/`prevLevel`), and every other tile has both history lists
present with equal lengths. -/
def tileInvariant (t : Tile) : Prop :=
  (t.status = TileStatus.Empty →
    t.level = none ∧ t.prevIndex = none ∧ t.prevLevel = none) ∧
  (t.status = TileStatus.Spawned → t.prevIndex = none ∧ t.prevLevel = none) ∧
  (t.status ≠ TileStatus.Empty → t.status ≠ TileStatus.Spawned →
    ∃ li ll, t.prevIndex = some li ∧ t.prevLevel = some ll ∧
      li.length = ll.length)

/-- The history invariant over a whole board. -/
def boardInv (s : GameState) : Prop :=
  ∀ i, tileInvariant (tileAt s.tiles i)

/-! ### Animation playback (`class GameAnimationController`)

The wall clock is abstracted: the JS computes
`deltaSeconds = (now - prevTime)/1000` from two `Date` samples; here each
`advance` receives that elapsed time as an explicit parameter, so the
`prevTime` field disappears.  `animationProgress` is exact rational
arithmetic in place of JS floats. -/

structure GameAnimationController where
  stateHistory : List GameState
  animationProgress : ℚ
deriving DecidableEq

namespace GameAnimationController

/-- `addState(state)`: pushes a clone of the state onto the tail of the
drawing queue. -/
def addState (c : GameAnimationController) (state : GameState) :
    GameAnimationController :=
  { c with stateHistory := c.stateHistory ++ [state.clone] }

/-- `animationStep` getter: elapsed seconds over the base duration of 0.2,
scaled by the queue length (catch-up mechanism). -/
def animationStep (c : GameAnimationController) (deltaSeconds : ℚ) : ℚ :=
  let baseAnimationDuration : ℚ := 1 / 5
  (c.stateHistory.length : ℚ) * (deltaSeconds / baseAnimationDuration)

/-- `advance()`: unless exactly one snapshot is queued with progress
already 1 (steady state), first retire the head snapshot (`shift`) and
reset progress when progress has reached 1, then accumulate the step
(`animationStep` reads the queue length after the shift) and clamp
progress to at most 1. -/
def advance (c : GameAnimationController) (deltaSeconds : ℚ) :
    GameAnimationController :=
  if c.stateHistory.length ≠ 1 ∨ c.animationProgress ≠ 1 then
    let c₁ :=
      if c.animationProgress = 1 then
        { c with animationProgress := 0, stateHistory := c.stateHistory.drop 1 }
      else c
    let p := c₁.animationProgress + c₁.animationStep deltaSeconds
    { c₁ with animationProgress := if 1 < p then 1 else p }
  else c

/-- `advance` iterated with the same simulated elapsed time. -/
def advanceIter (c : GameAnimationController) (deltaSeconds : ℚ) :
    Nat → GameAnimationController
  | 0 => c
  | n + 1 => advanceIter (c.advance deltaSeconds) deltaSeconds n

end GameAnimationController

/-- One iteration of `GameController.doMoves`: apply a queued direction to
the live board and, exactly when the move reports a change, push the new
state onto the animation queue. -/
def liveStep (p : GameState × GameAnimationController)
    (op : Direction × Nat × Nat) : GameState × GameAnimationController :=
  let m := p.1.move op.1 op.2.1 op.2.2
  (m.1, if m.2 then p.2.addState m.1 else p.2)

/-! ### Concrete boards used as witnesses and counterexamples -/

/-- The scenario board of the spec: a fresh 4×4 game with target level 11
whose two construction spawns produced a level-1 tile at index 0 and a
level-1 tile at index 1. -/
def c1Start : GameState := GameState.build 4 4 11 0 0 1 0

/-- A 1×2 board holding a freshly spawned level-1 tile at index 0 and a
level-2 tile at index 1; no direction can change it. -/
def c4Board : GameState :=
  { rows := 1, columns := 2, targetTileLevel := 11,
    tiles :=
      [{ index := 0, level := some 1, prevIndex := none, prevLevel := none,
         status := TileStatus.Spawned },
       { index := 1, level := some 2, prevIndex := none, prevLevel := none,
         status := TileStatus.Spawned }],
    score := 0, status := GameStatus.InProgress }

/-- A non-full 2×2 board in status Won (one level-11 tile). -/
def wonBoard : GameState :=
  { rows := 2, columns := 2, targetTileLevel := 11,
    tiles :=
      [{ index := 0, level := some 11, prevIndex := none, prevLevel := none,
         status := TileStatus.Spawned },
       Tile.init 1, Tile.init 2, Tile.init 3],
    score := 0, status := GameStatus.Won }

/-- An animation controller holding two snapshots with progress 0. -/
def animTwo : GameAnimationController :=
  { stateHistory := [c4Board.clone, c4Board.clone], animationProgress := 0 }

/-! # Theorems -/

set_option maxRecDepth 10000

/-! ## Basic facts about `clone`, `move` and `gravitate` -/

theorem tile_clone_eq (t : Tile) : t.clone = t := rfl

theorem clone_score (s : GameState) : s.clone.score = s.score := rfl

theorem tileAt_clone (s : GameState) (j : Nat) (h : j < s.boardSize) :
    tileAt s.clone.tiles j = tileAt s.tiles j := by
  simp [GameState.clone, tileAt, List.getD, List.getElem?_map, List.getElem?_range,
    h, tile_clone_eq]

theorem gravitate_status (s : GameState) (d : Direction) :
    (s.gravitate d).status = s.status := rfl

theorem gravitate_rows (s : GameState) (d : Direction) :
    (s.gravitate d).rows = s.rows := rfl

theorem gravitate_columns (s : GameState) (d : Direction) :
    (s.gravitate d).columns = s.columns := rfl

theorem gravitate_target (s : GameState) (d : Direction) :
    (s.gravitate d).targetTileLevel = s.targetTileLevel := rfl

/-- The boolean returned by `move` is `moveFlag`, independently of the
spawn draws (they only affect the state on a change). -/
theorem move_snd_eq_moveFlag (s : GameState) (d : Direction) (i r : Nat) :
    (s.move d i r).2 = s.moveFlag d := by
  rw [GameState.move, GameState.moveFlag]
  split <;> simp_all

/-- When `move` reports no change, the state it leaves behind is exactly
the gravitated board (no spawn, no status update). -/
theorem move_fst_of_unchanged (s : GameState) (d : Direction) (i r : Nat)
    (h : (s.move d i r).2 = false) : (s.move d i r).1 = s.gravitate d := by
  rw [GameState.move] at h ⊢
  split at h <;> simp_all

/-! ## Claim C1 -/

set_option synthInstance.maxSize 2000
set_option synthInstance.maxHeartbeats 2000000
set_option maxHeartbeats 4000000

/-- Claim C1 is refuted at the spawn draw that picks index 1: index 1 is
empty after the Left slide (the merge vacated it), so it is a legal
outcome of the spawn loop, and after that outcome index 1 holds the new
Spawned tile instead of being empty, and the spawn site was not empty
before the move. -/
theorem claim1_counterexample :
    1 < 16 ∧ (tileAt (c1Start.gravitate Direction.Left).tiles 1).isEmpty = true ∧
    (c1Start.move Direction.Left 1 0).2 = true ∧
    (tileAt (c1Start.move Direction.Left 1 0).1.tiles 1).isEmpty = false := by
  decide

/-- Claim C1 (amended): on the scenario board, for every outcome of the
spawn draws (an index that is empty after the Left slide — index 1
included — and a level draw below 10), `move(Left)` reports a change,
index 0 holds the merged level-2 tile, the score rises by exactly 4, the
status stays InProgress, exactly one Spawned tile appears at the drawn
index (which is never 0), every other index is empty, and index 1 is
empty unless the spawn landed on it. -/
theorem claim1_scenario : ∀ i, i < 16 → ∀ r, r < 10 →
    (tileAt (c1Start.gravitate Direction.Left).tiles i).isEmpty = true →
    ((c1Start.move Direction.Left i r).2 = true ∧
     tileAt (c1Start.move Direction.Left i r).1.tiles 0 =
       { index := 0, level := some 2, prevIndex := some [0, 1],
         prevLevel := some [1, 1], status := TileStatus.Merged } ∧
     (c1Start.move Direction.Left i r).1.score = c1Start.score + 4 ∧
     (c1Start.move Direction.Left i r).1.status = GameStatus.InProgress ∧
     i ≠ 0 ∧
     (tileAt (c1Start.move Direction.Left i r).1.tiles i).status = TileStatus.Spawned ∧
     (∀ j, j < 16 → j ≠ 0 → j ≠ i →
       (tileAt (c1Start.move Direction.Left i r).1.tiles j).isEmpty = true) ∧
     (i ≠ 1 → (tileAt (c1Start.move Direction.Left i r).1.tiles 1).isEmpty = true)) := by
  decide

/-- Witness for `claim1_scenario` at the spawn draw (2, 0). -/
theorem claim1_scenario_witness :
    (c1Start.move Direction.Left 2 0).2 = true ∧
    (c1Start.move Direction.Left 2 0).1.score = c1Start.score + 4 ∧
    (tileAt (c1Start.move Direction.Left 2 0).1.tiles 1).isEmpty = true := by
  have h := claim1_scenario 2 (by decide) 0 (by decide) (by decide)
  exact ⟨h.1, h.2.2.1, h.2.2.2.2.2.2.2 (by decide)⟩

/-! ## Claim C3 -/

/-- Claim C3: `isGameOver` is true iff the board is full and moving a
clone in each of the four directions reports "unchanged"; in particular a
board with an empty tile is never game-over. -/
theorem claim3_isGameOver_iff (s : GameState) :
    (s.isGameOver = true ↔
      (s.isFull = true ∧
        ∀ (d : Direction) (i r : Nat), (s.clone.move d i r).2 = false)) ∧
    (s.isFull = false → s.isGameOver = false) := by
  constructor
  · rw [GameState.isGameOver]
    simp only [List.all_cons, List.all_nil, Bool.and_eq_true, Bool.and_true,
      Bool.not_eq_true']
    constructor
    · rintro ⟨hf, hR, hU, hL, hD⟩
      refine ⟨hf, fun d i r => ?_⟩
      rw [move_snd_eq_moveFlag]
      cases d <;> assumption
    · rintro ⟨hf, hmv⟩
      have hR := hmv Direction.Right 0 0
      have hU := hmv Direction.Up 0 0
      have hL := hmv Direction.Left 0 0
      have hD := hmv Direction.Down 0 0
      rw [move_snd_eq_moveFlag] at hR hU hL hD
      exact ⟨hf, hR, hU, hL, hD⟩
  · intro h
    rw [GameState.isGameOver, h]
    rfl

/-- Witness for `claim3_isGameOver_iff`: the scenario board is not full,
hence not game-over. -/
theorem claim3_witness : c1Start.isGameOver = false :=
  (claim3_isGameOver_iff c1Start).2 (by decide)

/-! ## Claim C4 -/

/-- Claim C4 is refuted on a board with a freshly Spawned tile and no
possible move: `move(Left)` reports "unchanged", yet the tile's status
has become Still and its history lists have been rewritten from `null`
to singletons by `prepareForMove`. -/
theorem claim4_counterexample :
    (c4Board.move Direction.Left 0 0).2 = false ∧
    (tileAt c4Board.tiles 0).status = TileStatus.Spawned ∧
    (tileAt (c4Board.move Direction.Left 0 0).1.tiles 0).status = TileStatus.Still ∧
    (tileAt c4Board.tiles 0).prevIndex = none ∧
    (tileAt (c4Board.move Direction.Left 0 0).1.tiles 0).prevIndex = some [0] := by
  decide

/-- Claim C4 (amended): when `move` returns false, the score, the board
status, the dimensions and every tile's index and level are exactly as
before the call (everything `equals` compares, plus the untouched
metadata); tile statuses and history lists, however, are rewritten by
`prepareForMove` and need not be restored. -/
theorem claim4_unchanged_move (s : GameState) (d : Direction) (i r : Nat)
    (h : (s.move d i r).2 = false) :
    (s.move d i r).1.score = s.score ∧
    (s.move d i r).1.status = s.status ∧
    (s.move d i r).1.rows = s.rows ∧
    (s.move d i r).1.columns = s.columns ∧
    (s.move d i r).1.targetTileLevel = s.targetTileLevel ∧
    ∀ j, j < s.boardSize →
      (tileAt (s.move d i r).1.tiles j).index = (tileAt s.tiles j).index ∧
      (tileAt (s.move d i r).1.tiles j).level = (tileAt s.tiles j).level := by
  have hflag : ((s.gravitate d).equals s.clone) = true := by
    have := move_snd_eq_moveFlag s d i r
    rw [h, GameState.moveFlag] at this
    simpa using this.symm
  have hres := move_fst_of_unchanged s d i r h
  rw [hres]
  rw [GameState.equals] at hflag
  simp only [Bool.and_eq_true, beq_iff_eq, List.all_eq_true, List.mem_range] at hflag
  obtain ⟨⟨⟨hsc, _⟩, _⟩, htiles⟩ := hflag
  refine ⟨by rw [hsc, clone_score], gravitate_status s d, gravitate_rows s d,
    gravitate_columns s d, gravitate_target s d, ?_⟩
  intro j hj
  have hbs : (s.gravitate d).boardSize = s.boardSize := rfl
  have := htiles j (by rw [hbs]; exact hj)
  rw [tileAt_clone s j hj] at this
  rw [Tile.equals] at this
  simp only [Bool.and_eq_true, beq_iff_eq] at this
  exact this

/-- Witness for `claim4_unchanged_move` on the blocked 1×2 board. -/
theorem claim4_witness :
    (c4Board.move Direction.Left 0 0).1.score = c4Board.score ∧
    (c4Board.move Direction.Left 0 0).1.status = c4Board.status ∧
    (tileAt (c4Board.move Direction.Left 0 0).1.tiles 0).level =
      (tileAt c4Board.tiles 0).level := by
  have h := claim4_unchanged_move c4Board Direction.Left 0 0 (by decide)
  exact ⟨h.1, h.2.1, (h.2.2.2.2.2 0 (by decide)).2⟩

/-! ## Claim C6 -/

/-- Claim C6: the transitions of `updateStatus` — Lost whenever
`isGameOver` (overriding everything), InProgress to Won on reaching the
target level, Won to Continued on the next call, otherwise unchanged;
Continued is only ever entered from Won (or kept), and the status never
returns to InProgress from elsewhere. -/
theorem claim6_updateStatus (s : GameState) :
    (s.isGameOver = true → (s.updateStatus).status = GameStatus.Lost) ∧
    (s.isGameOver = false → s.status = GameStatus.InProgress →
      s.hasAchievedGoal = true → (s.updateStatus).status = GameStatus.Won) ∧
    (s.isGameOver = false → s.status = GameStatus.Won →
      (s.updateStatus).status = GameStatus.Continued) ∧
    (s.isGameOver = false →
      ¬(s.status = GameStatus.InProgress ∧ s.hasAchievedGoal = true) →
      s.status ≠ GameStatus.Won → (s.updateStatus).status = s.status) ∧
    ((s.updateStatus).status = GameStatus.Continued →
      s.status = GameStatus.Won ∨ s.status = GameStatus.Continued) ∧
    ((s.updateStatus).status = GameStatus.InProgress →
      s.status = GameStatus.InProgress) := by
  rw [GameState.updateStatus]
  split_ifs with h1 h2 h3 <;> simp_all [BEq.beq]

/-- Witness for `claim6_updateStatus`: the Won 2×2 board becomes
Continued. -/
theorem claim6_witness : (wonBoard.updateStatus).status = GameStatus.Continued :=
  (claim6_updateStatus wonBoard).2.2.1 (by decide) (by decide)

/-! ## Claim C10 -/

/-- Claim C10: `mergeWith` and `moveTo` on an empty source tile are
guarded no-ops: both tiles are returned unchanged. -/
theorem claim10_empty_noop (t u : Tile) (h : t.status = TileStatus.Empty) :
    t.mergeWith u = (t, u) ∧ t.moveTo u = (t, u) := by
  simp [Tile.mergeWith, Tile.moveTo, Tile.isEmpty, h]

/-- Witness for `claim10_empty_noop` on two fresh tiles. -/
theorem claim10_witness :
    (Tile.init 5).mergeWith (Tile.init 7) = (Tile.init 5, Tile.init 7) ∧
    (Tile.init 5).moveTo (Tile.init 7) = (Tile.init 5, Tile.init 7) :=
  claim10_empty_noop (Tile.init 5) (Tile.init 7) rfl

/-! ## Toolkit: `tileAt` and `List.set` -/

theorem tileAt_set_ne {ts : List Tile} {i j : Nat} {t : Tile} (h : i ≠ j) :
    tileAt (ts.set i t) j = tileAt ts j := by
  simp [tileAt, List.getD, List.getElem?_set_ne h]

theorem tileAt_set_self {ts : List Tile} {i : Nat} {t : Tile} (h : i < ts.length) :
    tileAt (ts.set i t) i = t := by
  simp [tileAt, List.getD, List.getElem?_set_self h]

theorem tileAt_of_length_le {ts : List Tile} {i : Nat} (h : ts.length ≤ i) :
    tileAt ts i = default := by
  simp [tileAt, List.getD, List.getElem?_eq_none h]

theorem lt_length_of_nonempty {ts : List Tile} {i : Nat}
    (h : (tileAt ts i).isEmpty = false) : i < ts.length := by
  by_contra hle
  rw [tileAt_of_length_le (Nat.le_of_not_lt hle)] at h
  exact absurd h (by decide)

theorem set_tileAt_self (ts : List Tile) (i : Nat) : ts.set i (tileAt ts i) = ts := by
  by_cases h : i < ts.length
  · apply List.ext_getElem?
    intro j
    by_cases hij : i = j
    · subst hij
      rw [List.getElem?_set_self h]
      simp [tileAt, List.getD, List.getElem?_eq_getElem h]
    · rw [List.getElem?_set_ne hij]
  · rw [List.set_eq_of_length_le (Nat.le_of_not_lt h)]

theorem tileAt_set_set_ne {ts : List Tile} {a b q : Nat} {t u : Tile}
    (ha : q ≠ a) (hb : q ≠ b) :
    tileAt ((ts.set a t).set b u) q = tileAt ts q := by
  rw [tileAt_set_ne (Ne.symm hb), tileAt_set_ne (Ne.symm ha)]

/-! ## Toolkit: chains of the gravitation recursion -/

theorem areNeighboring_self (columns p : Nat) : areNeighboring columns p p = false := by
  simp [areNeighboring]

theorem chain_unfold (rows columns : Nat) (d : Int) (p : Nat) :
    chain rows columns d p =
      p :: (if stepOK rows columns d p then chain rows columns d (nextNat p d) else []) := by
  rw [chain, dite_eq_ite]

theorem mem_chain_self (rows columns : Nat) (d : Int) (p : Nat) :
    p ∈ chain rows columns d p := by
  rw [chain_unfold]; exact List.mem_cons_self _ _

theorem mem_chain_cases {rows columns : Nat} {d : Int} {p q : Nat}
    (h : q ∈ chain rows columns d p) :
    q = p ∨ (stepOK rows columns d p ∧ q ∈ chain rows columns d (nextNat p d)) := by
  rw [chain_unfold] at h
  rcases List.mem_cons.mp h with h | h
  · exact Or.inl h
  · by_cases hs : stepOK rows columns d p
    · rw [if_pos hs] at h; exact Or.inr ⟨hs, h⟩
    · rw [if_neg hs] at h; exact absurd h (List.not_mem_nil q)

theorem mem_chain_of_next {rows columns : Nat} {d : Int} {p q : Nat}
    (hs : stepOK rows columns d p) (h : q ∈ chain rows columns d (nextNat p d)) :
    q ∈ chain rows columns d p := by
  rw [chain_unfold, if_pos hs]
  exact List.mem_cons_of_mem _ h

theorem stepOK_next_int {rows columns : Nat} {d : Int} {p : Nat}
    (hs : stepOK rows columns d p) : ((nextNat p d : Nat) : Int) = p + d := by
  rw [nextNat]
  have := hs.1.1
  omega

theorem stepOK_d_ne {rows columns : Nat} {d : Int} {p : Nat}
    (h : stepOK rows columns d p) : d ≠ 0 := by
  intro h0
  have h2 := h.2
  rw [h0] at h2
  have he : ((p : Int) + 0).toNat = p := by omega
  rw [he, areNeighboring_self] at h2
  exact Bool.false_ne_true h2

theorem stepOK_next_ne {rows columns : Nat} {d : Int} {p : Nat}
    (hs : stepOK rows columns d p) : nextNat p d ≠ p := by
  intro he
  have h2 := hs.2
  rw [nextNat] at he
  rw [he, areNeighboring_self] at h2
  exact Bool.false_ne_true h2

theorem chain_closed {rows columns : Nat} {d : Int} {p q : Nat}
    (h : q ∈ chain rows columns d p) (hq : stepOK rows columns d q) :
    nextNat q d ∈ chain rows columns d p := by
  induction p using chain.induct rows columns d with
  | _ p ih =>
    rcases mem_chain_cases h with rfl | ⟨hs, hmem⟩
    · exact mem_chain_of_next hq (mem_chain_self _ _ _ _)
    · exact mem_chain_of_next hs (ih hs hmem)

theorem chain_int_rep {rows columns : Nat} {d : Int} {p q : Nat}
    (h : q ∈ chain rows columns d p) : ∃ k : Nat, (q : Int) = p + k * d := by
  induction p using chain.induct rows columns d with
  | _ p ih =>
    rcases mem_chain_cases h with rfl | ⟨hs, hmem⟩
    · exact ⟨0, by simp⟩
    · obtain ⟨k, hk⟩ := ih hs hmem
      refine ⟨k + 1, ?_⟩
      rw [hk, stepOK_next_int hs]
      push_cast
      ring

theorem not_mem_chain_next {rows columns : Nat} {d : Int} {p : Nat}
    (hs : stepOK rows columns d p) :
    p ∉ chain rows columns d (nextNat p d) := by
  intro hmem
  obtain ⟨k, hk⟩ := chain_int_rep hmem
  rw [stepOK_next_int hs] at hk
  have h2 : ((k : Int) + 1) * d = 0 := by ring_nf; linarith
  rcases mul_eq_zero.mp h2 with h3 | h3
  · omega
  · exact stepOK_d_ne hs h3

theorem chain_pred {rows columns : Nat} {d : Int} {m q : Nat}
    (h : q ∈ chain rows columns d m) (hne : q ≠ m) :
    ∃ r, r ∈ chain rows columns d m ∧ stepOK rows columns d r ∧ nextNat r d = q := by
  induction m using chain.induct rows columns d with
  | _ p ih =>
    rcases mem_chain_cases h with rfl | ⟨hs, hmem⟩
    · exact absurd rfl hne
    · by_cases hqn : q = nextNat p d
      · exact ⟨p, mem_chain_self _ _ _ _, hs, hqn.symm⟩
      · obtain ⟨r, hr, hrs, hrq⟩ := ih hs hmem hqn
        exact ⟨r, mem_chain_of_next hs hr, hrs, hrq⟩

theorem frozen_of_next {rows columns : Nat} {d : Int} {ts : List Tile} {p : Nat}
    (hs : stepOK rows columns d p) (h : frozen rows columns d ts p) :
    frozen rows columns d ts (nextNat p d) :=
  fun r hr => h r (mem_chain_of_next hs hr)

theorem chain_occupied {rows columns : Nat} {d : Int} {ts : List Tile} :
    ∀ m, frozen rows columns d ts m → (tileAt ts m).isEmpty = false →
      ∀ q ∈ chain rows columns d m, (tileAt ts q).isEmpty = false := by
  intro m
  induction m using chain.induct rows columns d with
  | _ p ih =>
    intro hfz hocc q hq
    rcases mem_chain_cases hq with rfl | ⟨hs, hmem⟩
    · exact hocc
    · have hcan := hfz p (mem_chain_self _ _ _ _)
      have hnocc : (tileAt ts (nextNat p d)).isEmpty = false := by
        cases he : (tileAt ts (nextNat p d)).isEmpty with
        | false => rfl
        | true => exact absurd ⟨hs, Or.inl ⟨hocc, he⟩⟩ hcan
      exact ih hs (frozen_of_next hs hfz) hnocc q hmem

theorem frozen_congr {rows columns : Nat} {d : Int} {ts ts' : List Tile} {p : Nat}
    (h : ∀ r ∈ chain rows columns d p, tileAt ts' r = tileAt ts r)
    (hfz : frozen rows columns d ts p) : frozen rows columns d ts' p := by
  intro r hr hact
  obtain ⟨hs, hrest⟩ := hact
  apply hfz r hr
  refine ⟨hs, ?_⟩
  rw [h r hr, h (nextNat r d) (chain_closed hr hs)] at hrest
  exact hrest

theorem gMeasure_next_lt {rows columns : Nat} {d : Int} {p : Nat}
    (hs : stepOK rows columns d p) :
    gMeasure rows columns d (nextNat p d) < gMeasure rows columns d p := by
  have h1 := hs.1.1
  have h2 := hs.1.2
  have h3 := stepOK_next_ne hs
  rw [gMeasure, gMeasure, nextNat] at *
  split <;> omega

/-! ## Toolkit: tile facts and the gravitation-pass invariant -/

theorem Tile.isEmpty_iff {t : Tile} : t.isEmpty = true ↔ t.status = TileStatus.Empty := by
  simp [Tile.isEmpty]

theorem Tile.isEmpty_false_iff {t : Tile} :
    t.isEmpty = false ↔ t.status ≠ TileStatus.Empty := by
  simp [Tile.isEmpty]

theorem Tile.ableToMerge_iff {t : Tile} :
    t.ableToMerge = true ↔
      (t.status ≠ TileStatus.Merged ∧ t.status ≠ TileStatus.Empty) := by
  simp [Tile.ableToMerge]

theorem Tile.ableToMerge_of_empty {t : Tile} (h : t.isEmpty = true) :
    t.ableToMerge = false := by
  rw [Tile.isEmpty_iff] at h
  simp [Tile.ableToMerge, h]

theorem Tile.reset_status (t : Tile) : t.reset.status = TileStatus.Empty := rfl

theorem Tile.reset_isEmpty (t : Tile) : t.reset.isEmpty = true := rfl

theorem mergeCond_able_left {t u : Tile} (h : mergeCond t u = true) :
    t.ableToMerge = true := by
  rw [mergeCond] at h
  simp only [Bool.and_eq_true] at h
  exact h.1.1

theorem mergeCond_able_right {t u : Tile} (h : mergeCond t u = true) :
    u.ableToMerge = true := by
  rw [mergeCond] at h
  simp only [Bool.and_eq_true] at h
  exact h.1.2

theorem mergeCond_level_eq {t u : Tile} (h : mergeCond t u = true) :
    t.level = u.level := by
  rw [mergeCond] at h
  simp only [Bool.and_eq_true, beq_iff_eq] at h
  exact h.2

theorem mergeCond_false_of_empty {t u : Tile} (h : t.isEmpty = true) :
    mergeCond t u = false := by
  rw [mergeCond, Tile.ableToMerge_of_empty h]
  rfl

theorem tileShape_empty {t : Tile} (h : t.status = TileStatus.Empty) : tileShape t := by
  rw [tileShape, h]
  exact True.intro

theorem gravPost_comp {rows columns : Nat} {d : Int} {ts R final : List Tile}
    {index : Nat} (hs : stepOK rows columns d index)
    (h1 : gravPost rows columns d ts R (nextNat index d))
    (h2 : gravPost rows columns d R final index) :
    gravPost rows columns d ts final index := by
  refine ⟨h2.1.trans h1.1, ?_, h2.2.2.1, h2.2.2.2⟩
  intro q hq
  rw [h2.2.1 q hq, h1.2.1 q (fun hmem => hq (mem_chain_of_next hs hmem))]

theorem Tile.isEmpty_false_of_merged {t : Tile} (h : t.status = TileStatus.Merged) :
    t.isEmpty = false := by
  rw [Tile.isEmpty_false_iff, h]
  decide

theorem tileShape_sm {t : Tile} (hsh : tileShape t)
    (h : t.status = TileStatus.Still ∨ t.status = TileStatus.Moved) :
    ∃ j l, t.prevIndex = some [j] ∧ t.prevLevel = some [l] ∧ t.level.getD 0 = l := by
  rcases h with h | h <;> (rw [tileShape, h] at hsh; exact hsh)

theorem status_still_or_moved {t : Tile} (hsh : tileShape t) (hne : t.isEmpty = false)
    (hnm : t.status ≠ TileStatus.Merged) :
    t.status = TileStatus.Still ∨ t.status = TileStatus.Moved := by
  rw [Tile.isEmpty_false_iff] at hne
  cases hst : t.status with
  | Empty => exact absurd hst hne
  | Spawned => rw [tileShape, hst] at hsh; exact hsh.elim
  | Still => exact Or.inl rfl
  | Moved => exact Or.inr rfl
  | Merged => exact absurd hst hnm

theorem tileShape_of_moved {t : Tile} (h : t.status = TileStatus.Moved)
    (hx : ∃ j l, t.prevIndex = some [j] ∧ t.prevLevel = some [l] ∧ t.level.getD 0 = l) :
    tileShape t := by
  rw [tileShape, h]; exact hx

theorem tileShape_of_merged {t : Tile} (h : t.status = TileStatus.Merged)
    (hx : ∃ j₁ j₂ l, t.prevIndex = some [j₁, j₂] ∧ t.prevLevel = some [l, l] ∧
      t.level = some (l + 1)) : tileShape t := by
  rw [tileShape, h]; exact hx

theorem grav_move_step (rows columns : Nat) (d : Int) (gas : Nat)
    (ih : ∀ index ts sc, gMeasure rows columns d index < gas →
      gravInv rows columns d ts → gravSpec rows columns d gas index ts sc)
    (index : Nat) (ts : List Tile) (sc : Nat)
    (hgn : gMeasure rows columns d (nextNat index d) < gas)
    (hs : stepOK rows columns d index)
    (hJ : gravInv rows columns d ts)
    (hE : (tileAt ts (nextNat index d)).isEmpty = true) :
    gravPost rows columns d ts
      (gravitateTileGas rows columns d gas (nextNat index d)
        ((ts.set index ((tileAt ts index).moveTo (tileAt ts (nextNat index d))).1).set
          (nextNat index d)
          ((tileAt ts index).moveTo (tileAt ts (nextNat index d))).2) sc).1
      index := by
  cases htE : (tileAt ts index).isEmpty with
  | true =>
    have hmv1 : ((tileAt ts index).moveTo (tileAt ts (nextNat index d))).1 =
        tileAt ts index := by rw [Tile.moveTo, htE]; rfl
    have hmv2 : ((tileAt ts index).moveTo (tileAt ts (nextNat index d))).2 =
        tileAt ts (nextNat index d) := by rw [Tile.moveTo, htE]; rfl
    rw [hmv1, hmv2, set_tileAt_self, set_tileAt_self]
    have hspec := ih (nextNat index d) ts sc hgn hJ
    rw [gravSpec] at hspec
    refine ⟨hspec.1, ?_, hspec.2.2.1, ?_⟩
    · intro q hq
      exact hspec.2.1 q (fun c => hq (mem_chain_of_next hs c))
    · intro r hr
      rcases mem_chain_cases hr with heq | ⟨_, hmem⟩
      · rw [heq]
        rintro ⟨_, hrest⟩
        have hidx : tileAt
            (gravitateTileGas rows columns d gas (nextNat index d) ts sc).1 index =
            tileAt ts index := hspec.2.1 index (not_mem_chain_next hs)
        rcases hrest with ⟨hocc, _⟩ | hmc
        · rw [hidx, htE] at hocc
          exact absurd hocc (by decide)
        · rw [hidx, mergeCond_false_of_empty htE] at hmc
          exact Bool.false_ne_true hmc
      · exact hspec.2.2.2 r hmem
  | false =>
    have hlt : index < ts.length := lt_length_of_nonempty htE
    have hmv1 : ((tileAt ts index).moveTo (tileAt ts (nextNat index d))).1 =
        (tileAt ts index).reset := by rw [Tile.moveTo, htE]; rfl
    have hmv2 : ((tileAt ts index).moveTo (tileAt ts (nextNat index d))).2 =
        { tileAt ts (nextNat index d) with
            level := (tileAt ts index).level,
            prevLevel := (tileAt ts index).prevLevel,
            prevIndex := (tileAt ts index).prevIndex,
            status := TileStatus.Moved } := by rw [Tile.moveTo, htE]; rfl
    rw [hmv1, hmv2]
    set M : Tile :=
      { tileAt ts (nextNat index d) with
          level := (tileAt ts index).level,
          prevLevel := (tileAt ts index).prevLevel,
          prevIndex := (tileAt ts index).prevIndex,
          status := TileStatus.Moved } with hM
    set ts₂ : List Tile :=
      (ts.set index (tileAt ts index).reset).set (nextNat index d) M with hts₂
    have hcan : canAct rows columns d ts index := ⟨hs, Or.inl ⟨htE, hE⟩⟩
    have htMg : (tileAt ts index).status ≠ TileStatus.Merged := by
      intro hMg
      exact hJ.2 index hMg index (mem_chain_self _ _ _ _) hcan
    obtain ⟨j, l, hpi, hpl, hlv⟩ :=
      tileShape_sm (hJ.1 index) (status_still_or_moved (hJ.1 index) htE htMg)
    have hlen₂ : ts₂.length = ts.length := by
      rw [hts₂, List.length_set, List.length_set]
    have hat_idx : tileAt ts₂ index = (tileAt ts index).reset := by
      rw [hts₂, tileAt_set_ne (stepOK_next_ne hs), tileAt_set_self hlt]
    have hat_other : ∀ q, q ≠ index → q ≠ nextNat index d → tileAt ts₂ q = tileAt ts q := by
      intro q h1 h2
      rw [hts₂]
      exact tileAt_set_set_ne h1 h2
    have hMshape : tileShape M := by
      refine tileShape_of_moved rfl ⟨j, l, ?_, ?_, ?_⟩
      · exact hpi
      · exact hpl
      · exact hlv
    have hJ₂ : gravInv rows columns d ts₂ := by
      constructor
      · intro i
        by_cases hi1 : i = index
        · subst hi1
          rw [hat_idx]
          exact tileShape_empty rfl
        · by_cases hi2 : i = nextNat index d
          · by_cases hnlt : nextNat index d < ts.length
            · rw [hi2, hts₂, tileAt_set_self (by rw [List.length_set]; exact hnlt)]
              exact hMshape
            · rw [hi2, tileAt_of_length_le (by rw [hlen₂]; exact Nat.le_of_not_lt hnlt)]
              exact tileShape_empty rfl
          · rw [hat_other i hi1 hi2]
            exact hJ.1 i
      · intro m hm
        have hm1 : m ≠ index := by
          intro he
          rw [he, hat_idx] at hm
          exact TileStatus.noConfusion hm
        have hm2 : m ≠ nextNat index d := by
          intro he
          rw [he] at hm
          by_cases hnlt : nextNat index d < ts.length
          · rw [hts₂, tileAt_set_self (by rw [List.length_set]; exact hnlt)] at hm
            exact TileStatus.noConfusion hm
          · rw [tileAt_of_length_le (by rw [hlen₂]; exact Nat.le_of_not_lt hnlt)] at hm
            exact TileStatus.noConfusion hm
        rw [hat_other m hm1 hm2] at hm
        have hfzm := hJ.2 m hm
        refine frozen_congr ?_ hfzm
        intro r hr
        have hrne1 : r ≠ index := by
          intro he
          exact hfzm r hr (by rw [he]; exact hcan)
        have hrne2 : r ≠ nextNat index d := by
          intro he
          have hoc := chain_occupied m hfzm (Tile.isEmpty_false_of_merged hm) r hr
          rw [he] at hoc
          simp [hoc] at hE
        exact hat_other r hrne1 hrne2
    have hspec := ih (nextNat index d) ts₂ sc hgn hJ₂
    rw [gravSpec] at hspec
    refine ⟨hspec.1.trans hlen₂, ?_, hspec.2.2.1, ?_⟩
    · intro q hq
      have hq' := fun c => hq (mem_chain_of_next hs c)
      rw [hspec.2.1 q hq']
      exact hat_other q (fun he => hq (he ▸ mem_chain_self rows columns d index))
        (fun he => hq (he ▸ mem_chain_of_next hs (mem_chain_self rows columns d _)))
    · intro r hr
      rcases mem_chain_cases hr with heq | ⟨_, hmem⟩
      · rw [heq]
        rintro ⟨_, hrest⟩
        have hidx2 : tileAt
            (gravitateTileGas rows columns d gas (nextNat index d) ts₂ sc).1 index =
            (tileAt ts index).reset := by
          rw [hspec.2.1 index (not_mem_chain_next hs), hat_idx]
        rcases hrest with ⟨hocc, _⟩ | hmc
        · rw [hidx2] at hocc
          exact absurd hocc (by simp [Tile.reset, Tile.isEmpty])
        · rw [hidx2, mergeCond_false_of_empty (Tile.reset_isEmpty _)] at hmc
          exact Bool.false_ne_true hmc
      · exact hspec.2.2.2 r hmem

theorem gravGas_succ (rows columns : Nat) (d : Int) (gas index : Nat)
    (ts : List Tile) (sc : Nat) :
    gravitateTileGas rows columns d (gas + 1) index ts sc =
      if stepOK rows columns d index then
        let nextIndex := nextNat index d
        let r₁ := if (tileAt ts nextIndex).isEmpty then (ts, sc, ([] : List Nat))
                  else gravitateTileGas rows columns d gas nextIndex ts sc
        let tile := tileAt r₁.1 index
        let nextTile := tileAt r₁.1 nextIndex
        if nextTile.isEmpty then
          let p := tile.moveTo nextTile
          let r₂ := gravitateTileGas rows columns d gas nextIndex
                      ((r₁.1.set index p.1).set nextIndex p.2) r₁.2.1
          (r₂.1, r₂.2.1, r₁.2.2 ++ r₂.2.2)
        else if mergeCond tile nextTile then
          let p := tile.mergeWith nextTile
          ((r₁.1.set index p.1).set nextIndex p.2,
           r₁.2.1 + p.2.scoreValue.getD 0,
           r₁.2.2 ++ [p.2.level.getD 0])
        else r₁
      else (ts, sc, []) := rfl

theorem gravGas_succ_nostep {rows columns : Nat} {d : Int} {index : Nat}
    (gas : Nat) (ts : List Tile) (sc : Nat) (hs : ¬ stepOK rows columns d index) :
    gravitateTileGas rows columns d (gas + 1) index ts sc = (ts, sc, []) := by
  rw [gravGas_succ, if_neg hs]

theorem gravGas_succ_moveA {rows columns : Nat} {d : Int} {index : Nat}
    (gas : Nat) (ts : List Tile) (sc : Nat) (hs : stepOK rows columns d index)
    (hA : (tileAt ts (nextNat index d)).isEmpty = true) :
    gravitateTileGas rows columns d (gas + 1) index ts sc =
      ((gravitateTileGas rows columns d gas (nextNat index d)
          ((ts.set index ((tileAt ts index).moveTo (tileAt ts (nextNat index d))).1).set
            (nextNat index d)
            ((tileAt ts index).moveTo (tileAt ts (nextNat index d))).2) sc).1,
       (gravitateTileGas rows columns d gas (nextNat index d)
          ((ts.set index ((tileAt ts index).moveTo (tileAt ts (nextNat index d))).1).set
            (nextNat index d)
            ((tileAt ts index).moveTo (tileAt ts (nextNat index d))).2) sc).2.1,
       [] ++ (gravitateTileGas rows columns d gas (nextNat index d)
          ((ts.set index ((tileAt ts index).moveTo (tileAt ts (nextNat index d))).1).set
            (nextNat index d)
            ((tileAt ts index).moveTo (tileAt ts (nextNat index d))).2) sc).2.2) := by
  rw [gravGas_succ, if_pos hs]
  simp only [hA, if_true]

theorem gravGas_succ_moveB {rows columns : Nat} {d : Int} {index : Nat}
    (gas : Nat) (ts : List Tile) (sc : Nat) (hs : stepOK rows columns d index)
    (hA : (tileAt ts (nextNat index d)).isEmpty = false)
    (hB : (tileAt (gravitateTileGas rows columns d gas (nextNat index d) ts sc).1
            (nextNat index d)).isEmpty = true) :
    gravitateTileGas rows columns d (gas + 1) index ts sc =
      ((gravitateTileGas rows columns d gas (nextNat index d)
          (((gravitateTileGas rows columns d gas (nextNat index d) ts sc).1.set index
              ((tileAt (gravitateTileGas rows columns d gas (nextNat index d) ts sc).1 index).moveTo
                (tileAt (gravitateTileGas rows columns d gas (nextNat index d) ts sc).1
                  (nextNat index d))).1).set
            (nextNat index d)
            ((tileAt (gravitateTileGas rows columns d gas (nextNat index d) ts sc).1 index).moveTo
              (tileAt (gravitateTileGas rows columns d gas (nextNat index d) ts sc).1
                (nextNat index d))).2)
          (gravitateTileGas rows columns d gas (nextNat index d) ts sc).2.1).1,
       (gravitateTileGas rows columns d gas (nextNat index d)
          (((gravitateTileGas rows columns d gas (nextNat index d) ts sc).1.set index
              ((tileAt (gravitateTileGas rows columns d gas (nextNat index d) ts sc).1 index).moveTo
                (tileAt (gravitateTileGas rows columns d gas (nextNat index d) ts sc).1
                  (nextNat index d))).1).set
            (nextNat index d)
            ((tileAt (gravitateTileGas rows columns d gas (nextNat index d) ts sc).1 index).moveTo
              (tileAt (gravitateTileGas rows columns d gas (nextNat index d) ts sc).1
                (nextNat index d))).2)
          (gravitateTileGas rows columns d gas (nextNat index d) ts sc).2.1).2.1,
       (gravitateTileGas rows columns d gas (nextNat index d) ts sc).2.2 ++
       (gravitateTileGas rows columns d gas (nextNat index d)
          (((gravitateTileGas rows columns d gas (nextNat index d) ts sc).1.set index
              ((tileAt (gravitateTileGas rows columns d gas (nextNat index d) ts sc).1 index).moveTo
                (tileAt (gravitateTileGas rows columns d gas (nextNat index d) ts sc).1
                  (nextNat index d))).1).set
            (nextNat index d)
            ((tileAt (gravitateTileGas rows columns d gas (nextNat index d) ts sc).1 index).moveTo
              (tileAt (gravitateTileGas rows columns d gas (nextNat index d) ts sc).1
                (nextNat index d))).2)
          (gravitateTileGas rows columns d gas (nextNat index d) ts sc).2.1).2.2) := by
  rw [gravGas_succ, if_pos hs]
  simp only [hA, if_false, Bool.false_eq_true, hB, if_true]

theorem gravGas_succ_merge {rows columns : Nat} {d : Int} {index : Nat}
    (gas : Nat) (ts : List Tile) (sc : Nat) (hs : stepOK rows columns d index)
    (hA : (tileAt ts (nextNat index d)).isEmpty = false)
    (hB : (tileAt (gravitateTileGas rows columns d gas (nextNat index d) ts sc).1
            (nextNat index d)).isEmpty = false)
    (hC : mergeCond
        (tileAt (gravitateTileGas rows columns d gas (nextNat index d) ts sc).1 index)
        (tileAt (gravitateTileGas rows columns d gas (nextNat index d) ts sc).1
          (nextNat index d)) = true) :
    gravitateTileGas rows columns d (gas + 1) index ts sc =
      (((gravitateTileGas rows columns d gas (nextNat index d) ts sc).1.set index
          ((tileAt (gravitateTileGas rows columns d gas (nextNat index d) ts sc).1 index).mergeWith
            (tileAt (gravitateTileGas rows columns d gas (nextNat index d) ts sc).1
              (nextNat index d))).1).set
        (nextNat index d)
        ((tileAt (gravitateTileGas rows columns d gas (nextNat index d) ts sc).1 index).mergeWith
          (tileAt (gravitateTileGas rows columns d gas (nextNat index d) ts sc).1
            (nextNat index d))).2,
       (gravitateTileGas rows columns d gas (nextNat index d) ts sc).2.1 +
         ((tileAt (gravitateTileGas rows columns d gas (nextNat index d) ts sc).1 index).mergeWith
            (tileAt (gravitateTileGas rows columns d gas (nextNat index d) ts sc).1
              (nextNat index d))).2.scoreValue.getD 0,
       (gravitateTileGas rows columns d gas (nextNat index d) ts sc).2.2 ++
         [((tileAt (gravitateTileGas rows columns d gas (nextNat index d) ts sc).1 index).mergeWith
             (tileAt (gravitateTileGas rows columns d gas (nextNat index d) ts sc).1
               (nextNat index d))).2.level.getD 0]) := by
  rw [gravGas_succ, if_pos hs]
  simp only [hA, if_false, Bool.false_eq_true, hB, hC, if_true]

theorem gravGas_succ_blocked {rows columns : Nat} {d : Int} {index : Nat}
    (gas : Nat) (ts : List Tile) (sc : Nat) (hs : stepOK rows columns d index)
    (hA : (tileAt ts (nextNat index d)).isEmpty = false)
    (hB : (tileAt (gravitateTileGas rows columns d gas (nextNat index d) ts sc).1
            (nextNat index d)).isEmpty = false)
    (hC : mergeCond
        (tileAt (gravitateTileGas rows columns d gas (nextNat index d) ts sc).1 index)
        (tileAt (gravitateTileGas rows columns d gas (nextNat index d) ts sc).1
          (nextNat index d)) = false) :
    gravitateTileGas rows columns d (gas + 1) index ts sc =
      gravitateTileGas rows columns d gas (nextNat index d) ts sc := by
  rw [gravGas_succ, if_pos hs]
  simp only [hA, if_false, Bool.false_eq_true, hB, hC, if_true]

theorem grav_merge_step (rows columns : Nat) (d : Int) (index : Nat)
    (ts : List Tile)
    (hs : stepOK rows columns d index)
    (hJ : gravInv rows columns d ts)
    (hfzn : frozen rows columns d ts (nextNat index d))
    (hB : (tileAt ts (nextNat index d)).isEmpty = false)
    (hC : mergeCond (tileAt ts index) (tileAt ts (nextNat index d)) = true) :
    gravPost rows columns d ts
      ((ts.set index
          ((tileAt ts index).mergeWith (tileAt ts (nextNat index d))).1).set
        (nextNat index d)
        ((tileAt ts index).mergeWith (tileAt ts (nextNat index d))).2) index := by
  have htE : (tileAt ts index).isEmpty = false := by
    have h1 := mergeCond_able_left hC
    rw [Tile.ableToMerge_iff] at h1
    rw [Tile.isEmpty_false_iff]
    exact h1.2
  have hlt : index < ts.length := lt_length_of_nonempty htE
  have hnlt : nextNat index d < ts.length := lt_length_of_nonempty hB
  have hmv1 : ((tileAt ts index).mergeWith (tileAt ts (nextNat index d))).1 =
      (tileAt ts index).reset := by rw [Tile.mergeWith, htE]; rfl
  have hmv2 : ((tileAt ts index).mergeWith (tileAt ts (nextNat index d))).2 =
      { tileAt ts (nextNat index d) with
          level := some ((tileAt ts (nextNat index d)).level.getD 0 + 1),
          prevIndex := some ((tileAt ts (nextNat index d)).prevIndex.getD [] ++
            [((tileAt ts index).prevIndex.getD []).headD 0]),
          prevLevel := some ((tileAt ts (nextNat index d)).prevLevel.getD [] ++
            [((tileAt ts index).prevLevel.getD []).headD 0]),
          status := TileStatus.Merged } := by rw [Tile.mergeWith, htE]; rfl
  -- the two participating tiles are Still or Moved, with singleton histories
  have htMg : (tileAt ts index).status ≠ TileStatus.Merged := by
    have h1 := mergeCond_able_left hC
    rw [Tile.ableToMerge_iff] at h1
    exact h1.1
  have hnMg : (tileAt ts (nextNat index d)).status ≠ TileStatus.Merged := by
    have h1 := mergeCond_able_right hC
    rw [Tile.ableToMerge_iff] at h1
    exact h1.1
  obtain ⟨jt, lt', hpit, hplt, hlvt⟩ :=
    tileShape_sm (hJ.1 index) (status_still_or_moved (hJ.1 index) htE htMg)
  obtain ⟨jn, ln, hpin, hpln, hlvn⟩ :=
    tileShape_sm (hJ.1 (nextNat index d))
      (status_still_or_moved (hJ.1 (nextNat index d)) hB hnMg)
  have hll : lt' = ln := by
    rw [← hlvt, ← hlvn, mergeCond_level_eq hC]
  rw [hmv1, hmv2]
  set Mg : Tile :=
    { tileAt ts (nextNat index d) with
        level := some ((tileAt ts (nextNat index d)).level.getD 0 + 1),
        prevIndex := some ((tileAt ts (nextNat index d)).prevIndex.getD [] ++
          [((tileAt ts index).prevIndex.getD []).headD 0]),
        prevLevel := some ((tileAt ts (nextNat index d)).prevLevel.getD [] ++
          [((tileAt ts index).prevLevel.getD []).headD 0]),
        status := TileStatus.Merged } with hMg
  set ts₂ : List Tile :=
    (ts.set index (tileAt ts index).reset).set (nextNat index d) Mg with hts₂
  have hlen₂ : ts₂.length = ts.length := by
    rw [hts₂, List.length_set, List.length_set]
  have hat_idx : tileAt ts₂ index = (tileAt ts index).reset := by
    rw [hts₂, tileAt_set_ne (stepOK_next_ne hs), tileAt_set_self hlt]
  have hat_n : tileAt ts₂ (nextNat index d) = Mg := by
    rw [hts₂, tileAt_set_self (by rw [List.length_set]; exact hnlt)]
  have hat_other : ∀ q, q ≠ index → q ≠ nextNat index d → tileAt ts₂ q = tileAt ts q := by
    intro q h1 h2
    rw [hts₂]
    exact tileAt_set_set_ne h1 h2
  have hMgshape : tileShape Mg := by
    refine tileShape_of_merged rfl ⟨jn, jt, ln, ?_, ?_, ?_⟩
    · show some ((tileAt ts (nextNat index d)).prevIndex.getD [] ++
        [((tileAt ts index).prevIndex.getD []).headD 0]) = some [jn, jt]
      rw [hpin, hpit]
      rfl
    · show some ((tileAt ts (nextNat index d)).prevLevel.getD [] ++
        [((tileAt ts index).prevLevel.getD []).headD 0]) = some [ln, ln]
      rw [hpln, hplt, hll]
      rfl
    · show some ((tileAt ts (nextNat index d)).level.getD 0 + 1) = some (ln + 1)
      rw [hlvn]
  have hcan : canAct rows columns d ts index := ⟨hs, Or.inr hC⟩
  -- the freshly merged tile's chain is already resolved
  have hfz₂n : frozen rows columns d ts₂ (nextNat index d) := by
    intro r hr
    by_cases hrn : r = nextNat index d
    · rw [hrn]
      rintro ⟨hsn, hrest⟩
      have hq1 : nextNat (nextNat index d) d ≠ nextNat index d := stepOK_next_ne hsn
      have hq2 : nextNat (nextNat index d) d ≠ index := by
        intro he
        have e1 := stepOK_next_int hsn
        have e2 := stepOK_next_int hs
        rw [he] at e1
        have hd0 : d = 0 := by omega
        exact stepOK_d_ne hs hd0
      have hnn : tileAt ts₂ (nextNat (nextNat index d) d) =
          tileAt ts (nextNat (nextNat index d) d) := hat_other _ hq2 hq1
      have hcann := hfzn (nextNat index d) (mem_chain_self _ _ _ _)
      have hoccnn : (tileAt ts (nextNat (nextNat index d) d)).isEmpty = false := by
        cases hx : (tileAt ts (nextNat (nextNat index d) d)).isEmpty
        · rfl
        · exact absurd ⟨hsn, Or.inl ⟨hB, hx⟩⟩ hcann
      rcases hrest with ⟨_, hemp⟩ | hmc
      · rw [hnn, hoccnn] at hemp
        exact Bool.false_ne_true hemp
      · rw [hat_n] at hmc
        have h1 := mergeCond_able_left hmc
        rw [Tile.ableToMerge_iff] at h1
        exact h1.1 rfl
    · rintro ⟨hsr, hrest⟩
      have hrne1 : r ≠ index := by
        intro he
        exact not_mem_chain_next hs (he ▸ hr)
      have hq2 : nextNat r d ≠ index := by
        intro he
        have hx := chain_closed hr hsr
        rw [he] at hx
        exact not_mem_chain_next hs hx
      have hq1 : nextNat r d ≠ nextNat index d := by
        intro he
        have e1 := stepOK_next_int hsr
        have e2 := stepOK_next_int hs
        rw [he, e2] at e1
        have : r = index := by omega
        exact hrne1 this
      apply hfzn r hr
      refine ⟨hsr, ?_⟩
      rw [hat_other r hrne1 hrn, hat_other (nextNat r d) hq2 hq1] at hrest
      exact hrest
  have hJ₂ : gravInv rows columns d ts₂ := by
    constructor
    · intro i
      by_cases hi1 : i = index
      · rw [hi1, hat_idx]
        exact tileShape_empty rfl
      · by_cases hi2 : i = nextNat index d
        · rw [hi2, hat_n]
          exact hMgshape
        · rw [hat_other i hi1 hi2]
          exact hJ.1 i
    · intro m hm
      by_cases hm1 : m = index
      · rw [hm1, hat_idx] at hm
        exact absurd hm (by intro h; exact TileStatus.noConfusion h)
      · by_cases hm2 : m = nextNat index d
        · rw [hm2]
          exact hfz₂n
        · rw [hat_other m hm1 hm2] at hm
          have hfzm := hJ.2 m hm
          refine frozen_congr ?_ hfzm
          intro r hr
          have hrne1 : r ≠ index := by
            intro he
            exact hfzm r hr (by rw [he]; exact hcan)
          have hrne2 : r ≠ nextNat index d := by
            intro he
            have hnm : nextNat index d ∈ chain rows columns d m := by
              have hx := hr
              rw [he] at hx
              exact hx
            have hnem : nextNat index d ≠ m := fun hh => hm2 hh.symm
            obtain ⟨rr, hrr, hrrs, hrrq⟩ := chain_pred hnm hnem
            have e1 := stepOK_next_int hrrs
            rw [hrrq] at e1
            have e2 := stepOK_next_int hs
            have hri : rr = index := by omega
            rw [hri] at hrr
            exact hfzm index hrr hcan
          exact hat_other r hrne1 hrne2
  refine ⟨hlen₂, ?_, hJ₂, ?_⟩
  · intro q hq
    exact hat_other q (fun he => hq (he ▸ mem_chain_self rows columns d index))
      (fun he => hq (he ▸ mem_chain_of_next hs (mem_chain_self rows columns d _)))
  · intro r hr
    rcases mem_chain_cases hr with heq | ⟨_, hmem⟩
    · rw [heq]
      rintro ⟨_, hrest⟩
      rcases hrest with ⟨hocc, _⟩ | hmc
      · rw [hat_idx] at hocc
        exact absurd hocc (by simp [Tile.reset, Tile.isEmpty])
      · rw [hat_idx, mergeCond_false_of_empty (Tile.reset_isEmpty _)] at hmc
        exact Bool.false_ne_true hmc
    · exact hfz₂n r hmem

theorem gravGas_spec (rows columns : Nat) (d : Int) :
    ∀ gas index ts sc, gMeasure rows columns d index < gas →
      gravInv rows columns d ts → gravSpec rows columns d gas index ts sc := by
  intro gas
  induction gas with
  | zero => intro index ts sc hm _; exact absurd hm (Nat.not_lt_zero _)
  | succ gas ih =>
    intro index ts sc hm hJ
    rw [gravSpec]
    by_cases hs : stepOK rows columns d index
    · have hgn : gMeasure rows columns d (nextNat index d) < gas := by
        have := gMeasure_next_lt hs
        omega
      cases hA : (tileAt ts (nextNat index d)).isEmpty with
      | true =>
        rw [gravGas_succ_moveA gas ts sc hs hA]
        exact grav_move_step rows columns d gas ih index ts sc hgn hs hJ hA
      | false =>
        have hspec1 := ih (nextNat index d) ts sc hgn hJ
        rw [gravSpec] at hspec1
        cases hB : (tileAt (gravitateTileGas rows columns d gas (nextNat index d) ts sc).1
            (nextNat index d)).isEmpty with
        | true =>
          rw [gravGas_succ_moveB gas ts sc hs hA hB]
          exact gravPost_comp hs hspec1
            (grav_move_step rows columns d gas ih index _ _ hgn hs hspec1.2.2.1 hB)
        | false =>
          cases hC : mergeCond
              (tileAt (gravitateTileGas rows columns d gas (nextNat index d) ts sc).1 index)
              (tileAt (gravitateTileGas rows columns d gas (nextNat index d) ts sc).1
                (nextNat index d)) with
          | true =>
            rw [gravGas_succ_merge gas ts sc hs hA hB hC]
            exact gravPost_comp hs hspec1
              (grav_merge_step rows columns d index _ hs hspec1.2.2.1 hspec1.2.2.2 hB hC)
          | false =>
            rw [gravGas_succ_blocked gas ts sc hs hA hB hC]
            refine gravPost_comp hs hspec1 ⟨rfl, fun q _ => rfl, hspec1.2.2.1, ?_⟩
            intro r hr
            rcases mem_chain_cases hr with heq | ⟨_, hmem⟩
            · rw [heq]
              rintro ⟨_, hrest⟩
              rcases hrest with ⟨_, hocc⟩ | hmc
              · rw [hB] at hocc
                exact Bool.false_ne_true hocc
              · rw [hC] at hmc
                exact Bool.false_ne_true hmc
            · exact hspec1.2.2.2 r hmem
    · rw [gravGas_succ_nostep gas ts sc hs]
      refine ⟨rfl, fun q _ => rfl, hJ, ?_⟩
      intro r hr
      rcases mem_chain_cases hr with heq | ⟨hs', _⟩
      · rw [heq]
        rintro ⟨hs'', _⟩
        exact hs hs''
      · exact absurd hs' hs

/-! ## Claims C2, C5 and C7 -/

theorem tileShape_of_still {t : Tile} (h : t.status = TileStatus.Still)
    (hx : ∃ j l, t.prevIndex = some [j] ∧ t.prevLevel = some [l] ∧ t.level.getD 0 = l) :
    tileShape t := by
  rw [tileShape, h]; exact hx

theorem tileAt_map_prepare (ts : List Tile) (i : Nat) :
    tileAt (ts.map Tile.prepareForMove) i = (tileAt ts i).prepareForMove := by
  rw [tileAt, tileAt, List.getD, List.getD, List.get?_map]
  cases hx : ts.get? i <;> rfl

theorem prepareForMove_shape (t : Tile) : tileShape t.prepareForMove := by
  cases he : t.isEmpty with
  | true =>
    have : t.prepareForMove = t := by rw [Tile.prepareForMove, he]; rfl
    rw [this]
    exact tileShape_empty (Tile.isEmpty_iff.mp he)
  | false =>
    have : t.prepareForMove =
        { t with prevIndex := some [t.index], prevLevel := some [t.level.getD 0],
                 status := TileStatus.Still } := by rw [Tile.prepareForMove, he]; rfl
    rw [this]
    exact tileShape_of_still rfl ⟨t.index, t.level.getD 0, rfl, rfl, rfl⟩

theorem prepareForMove_status_ne_merged (t : Tile) :
    t.prepareForMove.status ≠ TileStatus.Merged := by
  cases he : t.isEmpty with
  | true =>
    have : t.prepareForMove = t := by rw [Tile.prepareForMove, he]; rfl
    rw [this]
    rw [Tile.isEmpty_iff] at he
    rw [he]
    exact fun hh => TileStatus.noConfusion hh
  | false =>
    have : t.prepareForMove.status = TileStatus.Still := by
      rw [Tile.prepareForMove, he]; rfl
    rw [this]
    exact fun hh => TileStatus.noConfusion hh

theorem gravInv_prepare (rows columns : Nat) (d : Int) (ts : List Tile) :
    gravInv rows columns d (ts.map Tile.prepareForMove) := by
  constructor
  · intro i
    rw [tileAt_map_prepare]
    exact prepareForMove_shape _
  · intro m hm
    rw [tileAt_map_prepare] at hm
    exact absurd hm (prepareForMove_status_ne_merged _)

theorem gravitateTile_gravInv {rows columns : Nat} {d : Int} {i : Nat}
    {ts : List Tile} {sc : Nat} (hJ : gravInv rows columns d ts) :
    gravInv rows columns d (gravitateTile rows columns d i ts sc).1 := by
  have h := gravGas_spec rows columns d (rows * columns + i + 1) i ts sc
    (by rw [gMeasure]; split <;> omega) hJ
  rw [gravSpec] at h
  exact h.2.2.1

theorem gravFold_inv (rows columns : Nat) (d : Int) :
    ∀ (l : List Nat) (acc : List Tile × Nat × List Nat),
      gravInv rows columns d acc.1 →
      gravInv rows columns d
        ((l.foldl (fun acc i =>
          let g := gravitateTile rows columns d i acc.1 acc.2.1
          (g.1, g.2.1, acc.2.2 ++ g.2.2)) acc)).1 := by
  intro l
  induction l with
  | nil => intro acc h; exact h
  | cons x xs ih =>
    intro acc h
    rw [List.foldl_cons]
    exact ih _ (gravitateTile_gravInv h)

theorem gravitate_tiles_eq (s : GameState) (dir : Direction) :
    (s.gravitate dir).tiles =
      ((List.range s.boardSize).foldl (fun acc i =>
          let g := gravitateTile s.rows s.columns (dir.indexChange s.columns) i
            acc.1 acc.2.1
          (g.1, g.2.1, acc.2.2 ++ g.2.2))
        (s.tiles.map Tile.prepareForMove, s.score, ([] : List Nat))).1 := rfl

theorem gravitate_gravInv (s : GameState) (dir : Direction) :
    gravInv s.rows s.columns (dir.indexChange s.columns) (s.gravitate dir).tiles := by
  rw [gravitate_tiles_eq]
  exact gravFold_inv _ _ _ _ _ (gravInv_prepare _ _ _ _)

/-- Extraction of claim C2's conclusions from the shape invariant. -/
theorem shape_history_bound {t : Tile} (hsh : tileShape t) (hne : t.isEmpty = false) :
    (t.prevIndex.getD []).length ≤ 2 ∧
    (t.status = TileStatus.Merged →
      (t.prevIndex.getD []).length = 2 ∧
      t.level = some ((t.prevLevel.getD []).headD 0 + 1)) := by
  cases hst : t.status with
  | Empty =>
    rw [Tile.isEmpty_false_iff] at hne
    exact absurd hst hne
  | Spawned => rw [tileShape, hst] at hsh; exact hsh.elim
  | Still =>
    obtain ⟨j, l, hpi, _, _⟩ := tileShape_sm hsh (Or.inl hst)
    exact ⟨by simp [hpi], fun hM => absurd hM (fun hh => TileStatus.noConfusion hh)⟩
  | Moved =>
    obtain ⟨j, l, hpi, _, _⟩ := tileShape_sm hsh (Or.inr hst)
    exact ⟨by simp [hpi], fun hM => absurd hM (fun hh => TileStatus.noConfusion hh)⟩
  | Merged =>
    rw [tileShape, hst] at hsh
    obtain ⟨j₁, j₂, l, hpi, hpl, hlv⟩ := hsh
    refine ⟨by simp [hpi], fun _ => ⟨by simp [hpi], ?_⟩⟩
    rw [hlv, hpl]
    rfl

/-- Claim C2: within one gravitation pass no tile merges twice — after
`gravitate`, every non-empty tile's history has at most two entries, and
a Merged tile has exactly two entries and a level exactly one above its
pre-turn level (recorded as the head of its `prevLevel` history by
`prepareForMove`). -/
theorem claim2_single_merge (s : GameState) (dir : Direction) (i : Nat)
    (h : (tileAt (s.gravitate dir).tiles i).isEmpty = false) :
    ((tileAt (s.gravitate dir).tiles i).prevIndex.getD []).length ≤ 2 ∧
    ((tileAt (s.gravitate dir).tiles i).status = TileStatus.Merged →
      ((tileAt (s.gravitate dir).tiles i).prevIndex.getD []).length = 2 ∧
      (tileAt (s.gravitate dir).tiles i).level =
        some (((tileAt (s.gravitate dir).tiles i).prevLevel.getD []).headD 0 + 1)) :=
  shape_history_bound ((gravitate_gravInv s dir).1 i) h

/-- Witness for `claim2_single_merge` on the merged tile of the scenario
board. -/
theorem claim2_witness :
    ((tileAt (c1Start.gravitate Direction.Left).tiles 0).prevIndex.getD []).length ≤ 2 ∧
    ((tileAt (c1Start.gravitate Direction.Left).tiles 0).prevIndex.getD []).length = 2 ∧
    (tileAt (c1Start.gravitate Direction.Left).tiles 0).level =
      some (((tileAt (c1Start.gravitate Direction.Left).tiles 0).prevLevel.getD []).headD 0 + 1) := by
  have h := claim2_single_merge c1Start Direction.Left 0 (by decide)
  exact ⟨h.1, h.2 (by decide)⟩

theorem mergeWith_snd_nonempty {t u : Tile} (hu : u.isEmpty = false) :
    (t.mergeWith u).2.isEmpty = false := by
  cases he : t.isEmpty with
  | true =>
    have : (t.mergeWith u).2 = u := by rw [Tile.mergeWith, he]; rfl
    rw [this]; exact hu
  | false =>
    have : (t.mergeWith u).2.status = TileStatus.Merged := by
      rw [Tile.mergeWith, he]; rfl
    rw [Tile.isEmpty_false_iff, this]
    exact fun hh => TileStatus.noConfusion hh

theorem scoreValue_getD {u : Tile} (hu : u.isEmpty = false) :
    u.scoreValue.getD 0 = 2 ^ u.level.getD 0 := by
  rw [Tile.scoreValue, hu]
  rfl

theorem gravGas_score (rows columns : Nat) (d : Int) :
    ∀ gas index ts sc,
      (gravitateTileGas rows columns d gas index ts sc).2.1 =
        sc + (((gravitateTileGas rows columns d gas index ts sc).2.2).map
          (fun l => 2 ^ l)).sum := by
  intro gas
  induction gas with
  | zero => intro index ts sc; rfl
  | succ gas ih =>
    intro index ts sc
    by_cases hs : stepOK rows columns d index
    · cases hA : (tileAt ts (nextNat index d)).isEmpty with
      | true =>
        rw [gravGas_succ_moveA gas ts sc hs hA]
        simp only [ih]
        simp
      | false =>
        cases hB : (tileAt (gravitateTileGas rows columns d gas (nextNat index d) ts sc).1
            (nextNat index d)).isEmpty with
        | true =>
          rw [gravGas_succ_moveB gas ts sc hs hA hB]
          simp only [ih]
          simp [List.sum_append, Nat.add_assoc]
        | false =>
          cases hC : mergeCond
              (tileAt (gravitateTileGas rows columns d gas (nextNat index d) ts sc).1 index)
              (tileAt (gravitateTileGas rows columns d gas (nextNat index d) ts sc).1
                (nextNat index d)) with
          | true =>
            rw [gravGas_succ_merge gas ts sc hs hA hB hC]
            simp only [ih, scoreValue_getD (mergeWith_snd_nonempty hB)]
            simp [List.sum_append, Nat.add_assoc]
          | false =>
            rw [gravGas_succ_blocked gas ts sc hs hA hB hC]
            exact ih _ _ _
    · rw [gravGas_succ_nostep gas ts sc hs]
      rfl

theorem gravitateTile_score (rows columns : Nat) (d : Int) (i : Nat)
    (ts : List Tile) (sc : Nat) :
    (gravitateTile rows columns d i ts sc).2.1 =
      sc + (((gravitateTile rows columns d i ts sc).2.2).map (fun l => 2 ^ l)).sum :=
  gravGas_score rows columns d _ i ts sc

theorem gravFold_score (rows columns : Nat) (d : Int) :
    ∀ (l : List Nat) (acc : List Tile × Nat × List Nat),
      ∃ ev : List Nat,
        ((l.foldl (fun acc i =>
            let g := gravitateTile rows columns d i acc.1 acc.2.1
            (g.1, g.2.1, acc.2.2 ++ g.2.2)) acc)).2.2 = acc.2.2 ++ ev ∧
        ((l.foldl (fun acc i =>
            let g := gravitateTile rows columns d i acc.1 acc.2.1
            (g.1, g.2.1, acc.2.2 ++ g.2.2)) acc)).2.1 =
          acc.2.1 + (ev.map (fun l => 2 ^ l)).sum := by
  intro l
  induction l with
  | nil => intro acc; exact ⟨[], by simp, by simp⟩
  | cons x xs ih =>
    intro acc
    rw [List.foldl_cons]
    obtain ⟨ev, he, hsc⟩ :=
      ih (let g := gravitateTile rows columns d x acc.1 acc.2.1
          (g.1, g.2.1, acc.2.2 ++ g.2.2))
    refine ⟨(gravitateTile rows columns d x acc.1 acc.2.1).2.2 ++ ev, ?_, ?_⟩
    · rw [he]
      simp [List.append_assoc]
    · rw [hsc]
      simp only [gravitateTile_score rows columns d x acc.1 acc.2.1]
      simp [List.sum_append, Nat.add_assoc]

theorem gravitate_score_eq (s : GameState) (dir : Direction) :
    (s.gravitate dir).score =
      s.score + ((s.gravitateEvents dir).map (fun l => 2 ^ l)).sum := by
  obtain ⟨ev, he, hsc⟩ := gravFold_score s.rows s.columns (dir.indexChange s.columns)
    (List.range s.boardSize) (s.tiles.map Tile.prepareForMove, s.score, ([] : List Nat))
  have h1 : (s.gravitate dir).score =
      ((List.range s.boardSize).foldl (fun acc i =>
          let g := gravitateTile s.rows s.columns (dir.indexChange s.columns) i
            acc.1 acc.2.1
          (g.1, g.2.1, acc.2.2 ++ g.2.2))
        (s.tiles.map Tile.prepareForMove, s.score, ([] : List Nat))).2.1 := rfl
  have h2 : s.gravitateEvents dir =
      ((List.range s.boardSize).foldl (fun acc i =>
          let g := gravitateTile s.rows s.columns (dir.indexChange s.columns) i
            acc.1 acc.2.1
          (g.1, g.2.1, acc.2.2 ++ g.2.2))
        (s.tiles.map Tile.prepareForMove, s.score, ([] : List Nat))).2.2 := rfl
  rw [h1, h2, hsc, he]
  simp

theorem updateStatus_score (s : GameState) : s.updateStatus.score = s.score := by
  rw [GameState.updateStatus]
  split_ifs <;> rfl

theorem spawnTile_score (s : GameState) (i r : Nat) :
    (s.spawnTile i r).score = s.score := by
  rw [GameState.spawnTile]
  split_ifs <;> rfl

theorem updateStatus_tiles (s : GameState) : s.updateStatus.tiles = s.tiles := by
  rw [GameState.updateStatus]
  split_ifs <;> rfl

/-- The two possible results of `move`. -/
theorem move_fst_cases (s : GameState) (d : Direction) (i r : Nat) :
    (s.move d i r).1 = ((s.gravitate d).spawnTile i r).updateStatus ∨
    (s.move d i r).1 = s.gravitate d := by
  rw [GameState.move]
  split
  · exact Or.inl rfl
  · exact Or.inr rfl

/-- Claim C5: the score is a `Nat` (non-negative by construction), it
never decreases across a move or any of its sub-operations, and the score
increase of a `move` equals the sum of `2 ^ (new level)` over the merges
of its gravitation pass (`gravitateEvents` is the ghost list of those new
levels, in merge order). -/
theorem claim5_score_accounting (s : GameState) (d : Direction) (i r : Nat) :
    (s.move d i r).1.score =
      s.score + ((s.gravitateEvents d).map (fun l => 2 ^ l)).sum ∧
    s.score ≤ (s.move d i r).1.score ∧
    (s.gravitate d).score =
      s.score + ((s.gravitateEvents d).map (fun l => 2 ^ l)).sum ∧
    (s.spawnTile i r).score = s.score ∧
    s.updateStatus.score = s.score := by
  have hmv : (s.move d i r).1.score = (s.gravitate d).score := by
    rcases move_fst_cases s d i r with h | h
    · rw [h, updateStatus_score, spawnTile_score]
    · rw [h]
  refine ⟨?_, ?_, gravitate_score_eq s d, spawnTile_score s i r, updateStatus_score s⟩
  · rw [hmv, gravitate_score_eq]
  · rw [hmv, gravitate_score_eq]
    exact Nat.le_add_right _ _

theorem tileClean_reset (t : Tile) : tileClean t.reset := fun _ => ⟨rfl, rfl, rfl⟩

theorem tileClean_moveTo_fst {t u : Tile} (h : tileClean t) : tileClean (t.moveTo u).1 := by
  cases he : t.isEmpty with
  | true =>
    have hx : (t.moveTo u).1 = t := by rw [Tile.moveTo, he]; rfl
    rw [hx]; exact h
  | false =>
    have hx : (t.moveTo u).1 = t.reset := by rw [Tile.moveTo, he]; rfl
    rw [hx]; exact tileClean_reset t

theorem tileClean_moveTo_snd {t u : Tile} (h : tileClean u) : tileClean (t.moveTo u).2 := by
  cases he : t.isEmpty with
  | true =>
    have hx : (t.moveTo u).2 = u := by rw [Tile.moveTo, he]; rfl
    rw [hx]; exact h
  | false =>
    have hx : (t.moveTo u).2.status = TileStatus.Moved := by rw [Tile.moveTo, he]; rfl
    intro hh
    rw [hx] at hh
    exact TileStatus.noConfusion hh

theorem tileClean_mergeWith_fst {t u : Tile} (h : tileClean t) :
    tileClean (t.mergeWith u).1 := by
  cases he : t.isEmpty with
  | true =>
    have hx : (t.mergeWith u).1 = t := by rw [Tile.mergeWith, he]; rfl
    rw [hx]; exact h
  | false =>
    have hx : (t.mergeWith u).1 = t.reset := by rw [Tile.mergeWith, he]; rfl
    rw [hx]; exact tileClean_reset t

theorem tileClean_mergeWith_snd {t u : Tile} (h : tileClean u) :
    tileClean (t.mergeWith u).2 := by
  cases he : t.isEmpty with
  | true =>
    have hx : (t.mergeWith u).2 = u := by rw [Tile.mergeWith, he]; rfl
    rw [hx]; exact h
  | false =>
    have hx : (t.mergeWith u).2.status = TileStatus.Merged := by
      rw [Tile.mergeWith, he]; rfl
    intro hh
    rw [hx] at hh
    exact TileStatus.noConfusion hh

theorem tileClean_prepare {t : Tile} (h : tileClean t) : tileClean t.prepareForMove := by
  cases he : t.isEmpty with
  | true =>
    have hx : t.prepareForMove = t := by rw [Tile.prepareForMove, he]; rfl
    rw [hx]; exact h
  | false =>
    have hx : t.prepareForMove.status = TileStatus.Still := by
      rw [Tile.prepareForMove, he]; rfl
    intro hh
    rw [hx] at hh
    exact TileStatus.noConfusion hh

theorem emptyClean_set {ts : List Tile} {k : Nat} {t : Tile}
    (h : emptyClean ts) (ht : tileClean t) : emptyClean (ts.set k t) := by
  intro i
  by_cases hik : k = i
  · subst hik
    by_cases hk : k < ts.length
    · rw [tileAt_set_self hk]; exact ht
    · rw [List.set_eq_of_length_le (Nat.le_of_not_lt hk)]; exact h k
  · rw [tileAt_set_ne hik]; exact h i

theorem gravGas_clean (rows columns : Nat) (d : Int) :
    ∀ gas index ts sc, emptyClean ts →
      emptyClean (gravitateTileGas rows columns d gas index ts sc).1 := by
  intro gas
  induction gas with
  | zero => intro index ts sc h; exact h
  | succ gas ih =>
    intro index ts sc h
    by_cases hs : stepOK rows columns d index
    · cases hA : (tileAt ts (nextNat index d)).isEmpty with
      | true =>
        rw [gravGas_succ_moveA gas ts sc hs hA]
        exact ih _ _ _ (emptyClean_set (emptyClean_set h (tileClean_moveTo_fst (h index)))
          (tileClean_moveTo_snd (h (nextNat index d))))
      | false =>
        have hclean1 := ih (nextNat index d) ts sc h
        cases hB : (tileAt (gravitateTileGas rows columns d gas (nextNat index d) ts sc).1
            (nextNat index d)).isEmpty with
        | true =>
          rw [gravGas_succ_moveB gas ts sc hs hA hB]
          exact ih _ _ _
            (emptyClean_set (emptyClean_set hclean1 (tileClean_moveTo_fst (hclean1 index)))
              (tileClean_moveTo_snd (hclean1 (nextNat index d))))
        | false =>
          cases hC : mergeCond
              (tileAt (gravitateTileGas rows columns d gas (nextNat index d) ts sc).1 index)
              (tileAt (gravitateTileGas rows columns d gas (nextNat index d) ts sc).1
                (nextNat index d)) with
          | true =>
            rw [gravGas_succ_merge gas ts sc hs hA hB hC]
            exact emptyClean_set
              (emptyClean_set hclean1 (tileClean_mergeWith_fst (hclean1 index)))
              (tileClean_mergeWith_snd (hclean1 (nextNat index d)))
          | false =>
            rw [gravGas_succ_blocked gas ts sc hs hA hB hC]
            exact hclean1
    · rw [gravGas_succ_nostep gas ts sc hs]
      exact h

theorem gravitateTile_clean {rows columns : Nat} {d : Int} {i : Nat}
    {ts : List Tile} {sc : Nat} (h : emptyClean ts) :
    emptyClean (gravitateTile rows columns d i ts sc).1 :=
  gravGas_clean rows columns d _ i ts sc h

theorem gravFold_clean (rows columns : Nat) (d : Int) :
    ∀ (l : List Nat) (acc : List Tile × Nat × List Nat),
      emptyClean acc.1 →
      emptyClean ((l.foldl (fun acc i =>
        let g := gravitateTile rows columns d i acc.1 acc.2.1
        (g.1, g.2.1, acc.2.2 ++ g.2.2)) acc)).1 := by
  intro l
  induction l with
  | nil => intro acc h; exact h
  | cons x xs ih =>
    intro acc h
    rw [List.foldl_cons]
    exact ih _ (gravitateTile_clean h)

theorem gravitate_clean (s : GameState) (dir : Direction)
    (h : emptyClean s.tiles) : emptyClean (s.gravitate dir).tiles := by
  rw [gravitate_tiles_eq]
  refine gravFold_clean _ _ _ _ _ ?_
  intro i
  rw [tileAt_map_prepare]
  exact tileClean_prepare (h i)

theorem shape_histories {t : Tile} (hsh : tileShape t)
    (hne : t.status ≠ TileStatus.Empty) (hnsp : t.status ≠ TileStatus.Spawned) :
    ∃ li ll, t.prevIndex = some li ∧ t.prevLevel = some ll ∧ li.length = ll.length := by
  cases hst : t.status with
  | Empty => exact absurd hst hne
  | Spawned => exact absurd hst hnsp
  | Still =>
    obtain ⟨j, l, hpi, hpl, _⟩ := tileShape_sm hsh (Or.inl hst)
    exact ⟨[j], [l], hpi, hpl, rfl⟩
  | Moved =>
    obtain ⟨j, l, hpi, hpl, _⟩ := tileShape_sm hsh (Or.inr hst)
    exact ⟨[j], [l], hpi, hpl, rfl⟩
  | Merged =>
    rw [tileShape, hst] at hsh
    obtain ⟨j₁, j₂, l, hpi, hpl, _⟩ := hsh
    exact ⟨[j₁, j₂], [l, l], hpi, hpl, rfl⟩

theorem boardInv_emptyClean {s : GameState} (h : boardInv s) : emptyClean s.tiles :=
  fun i => (h i).1

theorem gravitate_boardInv (s : GameState) (dir : Direction) (h : boardInv s) :
    boardInv (s.gravitate dir) := by
  intro i
  have hclean := gravitate_clean s dir (boardInv_emptyClean h)
  have hshape := (gravitate_gravInv s dir).1 i
  refine ⟨hclean i, ?_, ?_⟩
  · intro hsp
    rw [tileShape, hsp] at hshape
    exact hshape.elim
  · intro hne hnsp
    exact shape_histories hshape hne hnsp

theorem tileInvariant_init (i : Nat) : tileInvariant (Tile.init i) :=
  ⟨fun _ => ⟨rfl, rfl, rfl⟩, fun hsp => TileStatus.noConfusion hsp,
   fun hne _ => absurd rfl hne⟩

theorem tileInvariant_default : tileInvariant (default : Tile) :=
  tileInvariant_init 0

theorem spawnTile_boardInv (s : GameState) (si sr : Nat) (h : boardInv s) :
    boardInv (s.spawnTile si sr) := by
  rw [GameState.spawnTile]
  split_ifs with h1 h2
  · intro k
    show tileInvariant
      (tileAt (s.tiles.set si ((tileAt s.tiles si).spawn sr)) k)
    by_cases hk : si = k
    · subst hk
      by_cases hlt : si < s.tiles.length
      · rw [tileAt_set_self hlt]
        have hemp : (tileAt s.tiles si).isEmpty = true := by
          simp only [Bool.and_eq_true] at h2
          exact h2.2
        have hnones := (h si).1 (Tile.isEmpty_iff.mp hemp)
        refine ⟨fun hh => ?_, fun _ => ⟨hnones.2.1, hnones.2.2⟩, fun _ hnsp => ?_⟩
        · exact absurd hh (by rw [Tile.spawn]; exact fun x => TileStatus.noConfusion x)
        · exact absurd (by rw [Tile.spawn] : ((tileAt s.tiles si).spawn sr).status =
            TileStatus.Spawned) hnsp
      · rw [List.set_eq_of_length_le (Nat.le_of_not_lt hlt)]
        exact h si
    · rw [tileAt_set_ne hk]
      exact h k
  · exact h
  · exact h

theorem updateStatus_boardInv (s : GameState) (h : boardInv s) :
    boardInv s.updateStatus := by
  intro i
  rw [updateStatus_tiles]
  exact h i

theorem move_boardInv (s : GameState) (d : Direction) (i r : Nat) (h : boardInv s) :
    boardInv (s.move d i r).1 := by
  rcases move_fst_cases s d i r with hc | hc
  · rw [hc]
    exact updateStatus_boardInv _ (spawnTile_boardInv _ _ _ (gravitate_boardInv s d h))
  · rw [hc]
    exact gravitate_boardInv s d h

theorem build_boardInv (rows columns target i₁ r₁ i₂ r₂ : Nat) :
    boardInv (GameState.build rows columns target i₁ r₁ i₂ r₂) := by
  rw [GameState.build]
  refine spawnTile_boardInv _ _ _ (spawnTile_boardInv _ _ _ ?_)
  intro i
  by_cases h : i < rows * columns
  · have hx : tileAt ((List.range (rows * columns)).map Tile.init) i = Tile.init i := by
      simp [tileAt, List.getD, List.getElem?_map, List.getElem?_range, h]
    rw [hx]
    exact tileInvariant_init i
  · have hx : tileAt ((List.range (rows * columns)).map Tile.init) i = default := by
      apply tileAt_of_length_le
      simp [Nat.le_of_not_lt h]
    rw [hx]
    exact tileInvariant_default

theorem boardInv_reachable {s : GameState} (h : Reachable s) : boardInv s := by
  induction h with
  | init rows columns target i₁ r₁ i₂ r₂ => exact build_boardInv _ _ _ _ _ _ _
  | step s d i r _ ih => exact move_boardInv s d i r ih

/-- Claim C7 (amended): on every reachable board, `prevIndex` and
`prevLevel` are null exactly on Empty and Spawned tiles (the original
claim said Empty only), and have equal lengths whenever present. -/
theorem claim7_history (s : GameState) (hs : Reachable s) (i : Nat) :
    ((tileAt s.tiles i).prevIndex = none ↔
      ((tileAt s.tiles i).status = TileStatus.Empty ∨
       (tileAt s.tiles i).status = TileStatus.Spawned)) ∧
    ((tileAt s.tiles i).prevLevel = none ↔
      ((tileAt s.tiles i).status = TileStatus.Empty ∨
       (tileAt s.tiles i).status = TileStatus.Spawned)) ∧
    (∀ li ll, (tileAt s.tiles i).prevIndex = some li →
      (tileAt s.tiles i).prevLevel = some ll → li.length = ll.length) := by
  obtain ⟨h1, h2, h3⟩ := boardInv_reachable hs i
  refine ⟨⟨?_, ?_⟩, ⟨?_, ?_⟩, ?_⟩
  · intro hn
    by_contra hc
    push_neg at hc
    obtain ⟨li, ll, hpi, _, _⟩ := h3 hc.1 hc.2
    rw [hpi] at hn
    exact Option.noConfusion hn
  · rintro (he | hsp)
    · exact (h1 he).2.1
    · exact (h2 hsp).1
  · intro hn
    by_contra hc
    push_neg at hc
    obtain ⟨li, ll, _, hpl, _⟩ := h3 hc.1 hc.2
    rw [hpl] at hn
    exact Option.noConfusion hn
  · rintro (he | hsp)
    · exact (h1 he).2.2
    · exact (h2 hsp).2
  · intro li ll hpi hpl
    by_cases he : (tileAt s.tiles i).status = TileStatus.Empty ∨
        (tileAt s.tiles i).status = TileStatus.Spawned
    · rcases he with he | he
      · rw [(h1 he).2.1] at hpi
        exact Option.noConfusion hpi
      · rw [(h2 he).1] at hpi
        exact Option.noConfusion hpi
    · push_neg at he
      obtain ⟨li', ll', hpi', hpl', hlen⟩ := h3 he.1 he.2
      rw [hpi'] at hpi
      rw [hpl'] at hpl
      rw [← Option.some_inj.mp hpi, ← Option.some_inj.mp hpl]
      exact hlen

/-- Claim C7 is refuted on the freshly constructed scenario board: its
tile at index 0 is Spawned (hence not Empty) yet both history lists are
null, because `Tile.spawn` does not touch them. -/
theorem claim7_counterexample :
    Reachable c1Start ∧
    (tileAt c1Start.tiles 0).status ≠ TileStatus.Empty ∧
    (tileAt c1Start.tiles 0).prevIndex = none ∧
    (tileAt c1Start.tiles 0).prevLevel = none :=
  ⟨Reachable.init 4 4 11 0 0 1 0, by decide, by decide, by decide⟩

/-- Witness for `claim7_history` at tile 2 of the scenario board. -/
theorem claim7_witness :
    ((tileAt c1Start.tiles 2).prevIndex = none ↔
      ((tileAt c1Start.tiles 2).status = TileStatus.Empty ∨
       (tileAt c1Start.tiles 2).status = TileStatus.Spawned)) ∧
    ((tileAt c1Start.tiles 2).prevLevel = none ↔
      ((tileAt c1Start.tiles 2).status = TileStatus.Empty ∨
       (tileAt c1Start.tiles 2).status = TileStatus.Spawned)) ∧
    (∀ li ll, (tileAt c1Start.tiles 2).prevIndex = some li →
      (tileAt c1Start.tiles 2).prevLevel = some ll → li.length = ll.length) :=
  claim7_history c1Start (Reachable.init 4 4 11 0 0 1 0) 2

/-! ## Claims C8 and C9 -/

theorem liveStep_prefix :
    ∀ (ops : List (Direction × Nat × Nat)) (p : GameState × GameAnimationController),
      ∃ tail, (ops.foldl liveStep p).2.stateHistory = p.2.stateHistory ++ tail := by
  intro ops
  induction ops with
  | nil => intro p; exact ⟨[], by simp⟩
  | cons op ops ih =>
    intro p
    rw [List.foldl_cons]
    obtain ⟨t1, h1⟩ := ih (liveStep p op)
    have h0 : ∃ e, (liveStep p op).2.stateHistory = p.2.stateHistory ++ e := by
      rw [liveStep]
      cases hf : (p.1.move op.1 op.2.1 op.2.2).2 with
      | false => exact ⟨[], by simp [hf]⟩
      | true =>
        exact ⟨[(p.1.move op.1 op.2.1 op.2.2).1.clone],
          by simp [hf, GameAnimationController.addState]⟩
    obtain ⟨e, he⟩ := h0
    exact ⟨e ++ t1, by rw [h1, he, List.append_assoc]⟩

/-- Claim C8: `addState` pushes a clone of the board onto the tail of the
snapshot queue; the clone carries the board's exact score and tiles at
the moment of the call, and no later sequence of live-board operations
(`liveStep` is one iteration of `GameController.doMoves`: a `move` plus a
conditional `addState` of the new state) ever alters the queued snapshot:
the prefix of the queue up to and including it is untouched.  (The JS
tile clone aliases the history arrays, but every later pass reassigns
fresh arrays via `prepareForMove` before pushing onto them, so the
snapshot is observably immutable; in this value-level embedding that
immutability is exact.) -/
theorem claim8_snapshot (c : GameAnimationController) (s : GameState)
    (ops : List (Direction × Nat × Nat)) :
    (c.addState s).stateHistory = c.stateHistory ++ [s.clone] ∧
    s.clone.score = s.score ∧
    (∀ i, i < s.boardSize → tileAt s.clone.tiles i = tileAt s.tiles i) ∧
    (ops.foldl liveStep (s, c.addState s)).2.stateHistory.take
        (c.addState s).stateHistory.length = (c.addState s).stateHistory ∧
    (ops.foldl liveStep (s, c.addState s)).2.stateHistory[c.stateHistory.length]? =
      some s.clone := by
  obtain ⟨tail, htail⟩ := liveStep_prefix ops (s, c.addState s)
  refine ⟨rfl, rfl, fun i hi => tileAt_clone s i hi, ?_, ?_⟩
  · rw [htail]
    exact List.take_left _ _
  · rw [htail]
    have h1 : (c.addState s).stateHistory = c.stateHistory ++ [s.clone] := rfl
    rw [h1, List.append_assoc]
    rw [List.getElem?_append_right (Nat.le_refl _)]
    simp

/-- Witness for `claim8_snapshot`: one live move after queuing the 1×2
board leaves its snapshot in place. -/
theorem claim8_witness :
    (animTwo.addState c4Board).stateHistory =
      animTwo.stateHistory ++ [c4Board.clone] ∧
    (([(Direction.Left, 0, 0)] : List (Direction × Nat × Nat)).foldl liveStep
        (c4Board, animTwo.addState c4Board)).2.stateHistory[animTwo.stateHistory.length]? =
      some c4Board.clone := by
  have h := claim8_snapshot animTwo c4Board [(Direction.Left, 0, 0)]
  exact ⟨h.1, h.2.2.2.2⟩

namespace GameAnimationController

theorem advance_eq_steady {c : GameAnimationController} (δ : ℚ)
    (hlen : c.stateHistory.length = 1) (hp : c.animationProgress = 1) :
    c.advance δ = c := by
  rw [advance, if_neg]
  push_neg
  exact ⟨hlen, hp⟩

theorem advance_eq_noshift {c : GameAnimationController} (δ : ℚ)
    (h : c.animationProgress ≠ 1) :
    c.advance δ =
      { c with animationProgress :=
          if 1 < c.animationProgress + c.animationStep δ then 1
          else c.animationProgress + c.animationStep δ } := by
  rw [advance, if_pos (Or.inr h), if_neg h]

theorem advance_eq_shift {c : GameAnimationController} (δ : ℚ)
    (hp : c.animationProgress = 1) (hlen : c.stateHistory.length ≠ 1) :
    c.advance δ =
      { stateHistory := c.stateHistory.drop 1,
        animationProgress :=
          if 1 < (0 : ℚ) + ((c.stateHistory.drop 1).length : ℚ) * (δ / (1 / 5)) then 1
          else (0 : ℚ) + ((c.stateHistory.drop 1).length : ℚ) * (δ / (1 / 5)) } := by
  rw [advance, if_pos (Or.inl hlen), if_pos hp]
  rfl

theorem animationStep_nonneg {c : GameAnimationController} {δ : ℚ} (hδ : 0 ≤ δ) :
    0 ≤ c.animationStep δ := by
  rw [animationStep]
  positivity

theorem advance_stateHistory_cases (c : GameAnimationController) (δ : ℚ) :
    (c.advance δ).stateHistory = c.stateHistory ∨
    (c.advance δ).stateHistory = c.stateHistory.drop 1 ∧
      c.animationProgress = 1 ∧ c.stateHistory.length ≠ 1 := by
  by_cases hp : c.animationProgress = 1
  · by_cases hlen : c.stateHistory.length = 1
    · rw [advance_eq_steady δ hlen hp]
      exact Or.inl rfl
    · rw [advance_eq_shift δ hp hlen]
      exact Or.inr ⟨rfl, hp, hlen⟩
  · rw [advance_eq_noshift δ hp]
    exact Or.inl rfl

theorem advance_len_pos {c : GameAnimationController} (δ : ℚ)
    (h : 1 ≤ c.stateHistory.length) : 1 ≤ (c.advance δ).stateHistory.length := by
  rcases advance_stateHistory_cases c δ with hc | ⟨hc, _, hlen⟩
  · rw [hc]; exact h
  · rw [hc, List.length_drop]
    omega

theorem advance_progress_bounds {c : GameAnimationController} {δ : ℚ}
    (h0 : 0 ≤ c.animationProgress) (h1 : c.animationProgress ≤ 1) (hδ : 0 ≤ δ) :
    0 ≤ (c.advance δ).animationProgress ∧ (c.advance δ).animationProgress ≤ 1 := by
  by_cases hp : c.animationProgress = 1
  · by_cases hlen : c.stateHistory.length = 1
    · rw [advance_eq_steady δ hlen hp]
      exact ⟨h0, h1⟩
    · rw [advance_eq_shift δ hp hlen]
      have hstep : (0 : ℚ) ≤ ((c.stateHistory.drop 1).length : ℚ) * (δ / (1 / 5)) := by
        positivity
      constructor
      · split
        · norm_num
        · linarith
      · split
        · norm_num
        · linarith [not_lt.mp (by assumption :
            ¬(1 : ℚ) < 0 + ((c.stateHistory.drop 1).length : ℚ) * (δ / (1 / 5)))]
  · rw [advance_eq_noshift δ hp]
    have hstep := animationStep_nonneg (c := c) hδ
    constructor
    · show (0 : ℚ) ≤ if 1 < c.animationProgress + c.animationStep δ then 1
        else c.animationProgress + c.animationStep δ
      split
      · norm_num
      · linarith
    · show (if 1 < c.animationProgress + c.animationStep δ then (1 : ℚ)
        else c.animationProgress + c.animationStep δ) ≤ 1
      split
      · norm_num
      · linarith [not_lt.mp (by assumption :
          ¬(1 : ℚ) < c.animationProgress + c.animationStep δ)]

theorem foldl_advance_bounds {c : GameAnimationController} {ds : List ℚ}
    (h0 : 0 ≤ c.animationProgress) (h1 : c.animationProgress ≤ 1)
    (hds : ∀ x ∈ ds, 0 ≤ x) :
    0 ≤ (ds.foldl advance c).animationProgress ∧
      (ds.foldl advance c).animationProgress ≤ 1 := by
  induction ds generalizing c with
  | nil => exact ⟨h0, h1⟩
  | cons x xs ih =>
    rw [List.foldl_cons]
    have hb := advance_progress_bounds h0 h1 (hds x (List.mem_cons_self x xs))
    exact ih hb.1 hb.2 (fun y hy => hds y (List.mem_cons_of_mem x hy))

theorem advance_retire_inv {c : GameAnimationController} (δ : ℚ)
    (h : (c.advance δ).stateHistory.length < c.stateHistory.length) :
    c.animationProgress = 1 ∧ 2 ≤ c.stateHistory.length := by
  rcases advance_stateHistory_cases c δ with hc | ⟨hc, hp, hlen⟩
  · rw [hc] at h
    exact absurd h (lt_irrefl _)
  · rw [hc, List.length_drop] at h
    refine ⟨hp, ?_⟩
    omega

theorem advance_progress_decrease {c : GameAnimationController} {δ : ℚ}
    (hlen : 1 ≤ c.stateHistory.length) (h1 : c.animationProgress ≤ 1) (hδ : 0 ≤ δ)
    (hd : (c.advance δ).animationProgress < c.animationProgress) :
    c.animationProgress = 1 ∧
      (c.advance δ).stateHistory.length < c.stateHistory.length := by
  by_cases hp : c.animationProgress = 1
  · by_cases hl1 : c.stateHistory.length = 1
    · rw [advance_eq_steady δ hl1 hp] at hd
      exact absurd hd (lt_irrefl _)
    · refine ⟨hp, ?_⟩
      rw [advance_eq_shift δ hp hl1]
      show (c.stateHistory.drop 1).length < c.stateHistory.length
      rw [List.length_drop]
      omega
  · rw [advance_eq_noshift δ hp] at hd
    have hstep := animationStep_nonneg (c := c) hδ
    exfalso
    revert hd
    show ¬ (if 1 < c.animationProgress + c.animationStep δ then (1:ℚ)
      else c.animationProgress + c.animationStep δ) < c.animationProgress
    split
    · intro hh
      linarith
    · intro hh
      linarith

end GameAnimationController

namespace GameAnimationController

theorem animationStep_two {c : GameAnimationController} (δ : ℚ)
    (hlen : c.stateHistory.length = 2) : c.animationStep δ = 10 * δ := by
  rw [animationStep, hlen]
  push_cast
  ring

theorem advanceIter_succ_last (δ : ℚ) :
    ∀ (n : ℕ) (c : GameAnimationController),
      advanceIter c δ (n + 1) = (advanceIter c δ n).advance δ := by
  intro n
  induction n with
  | zero => intro c; rfl
  | succ n ih => intro c; exact ih (c.advance δ)

theorem advance_reach {δ : ℚ} (hδ : 0 < δ) :
    ∀ (n : ℕ) (c : GameAnimationController), c.stateHistory.length = 2 →
      0 ≤ c.animationProgress → c.animationProgress ≤ 1 →
      1 ≤ c.animationProgress + 10 * δ * n →
      ∃ m, (advanceIter c δ m).animationProgress = 1 ∧
        (advanceIter c δ m).stateHistory = c.stateHistory := by
  intro n
  induction n with
  | zero =>
    intro c h2 h0 h1 hge
    push_cast at hge
    have hone : c.animationProgress = 1 := le_antisymm h1 (by linarith)
    exact ⟨0, hone, rfl⟩
  | succ n ihn =>
    intro c h2 h0 h1 hge
    by_cases hp : c.animationProgress = 1
    · exact ⟨0, hp, rfl⟩
    · have hlt : c.animationProgress < 1 := lt_of_le_of_ne h1 hp
      have hstep2 := animationStep_two (c := c) δ h2
      have hadv := advance_eq_noshift (c := c) δ hp
      have hhist : (c.advance δ).stateHistory = c.stateHistory := by rw [hadv]
      have hprog : (c.advance δ).animationProgress =
          if 1 < c.animationProgress + 10 * δ then 1
          else c.animationProgress + 10 * δ := by
        rw [hadv]
        show (if 1 < c.animationProgress + c.animationStep δ then (1:ℚ)
          else c.animationProgress + c.animationStep δ) = _
        rw [hstep2]
      have h2' : (c.advance δ).stateHistory.length = 2 := by rw [hhist]; exact h2
      have hb := advance_progress_bounds h0 h1 (le_of_lt hδ)
      have hge' : 1 ≤ (c.advance δ).animationProgress + 10 * δ * n := by
        rw [hprog]
        split
        · have hx : (0:ℚ) ≤ 10 * δ * n := by positivity
          linarith
        · push_cast at hge
          linarith
      obtain ⟨m, hm1, hm2⟩ := ihn (c.advance δ) h2' hb.1 hb.2 hge'
      refine ⟨m + 1, hm1, ?_⟩
      rw [show advanceIter c δ (m + 1) = advanceIter (c.advance δ) δ m from rfl, hm2,
        hhist]

end GameAnimationController

/-- Claim C9: after the first `addState` the queue is never empty;
`animationProgress` stays in [0,1] under any sequence of `advance` calls
with non-negative elapsed times; progress decreases (the reset to 0) only
when the advance retires the head snapshot, which in turn happens only
when progress has reached 1 with more than one snapshot queued; and with
two snapshots queued, repeated `advance` calls with a fixed positive
elapsed time reach progress 1 and then retire the head in finitely many
calls. -/
theorem claim9_animation (c : GameAnimationController) (δ : ℚ) (ds : List ℚ)
    (s : GameState) :
    (1 ≤ c.stateHistory.length → 1 ≤ (c.advance δ).stateHistory.length) ∧
    (1 ≤ (c.addState s).stateHistory.length) ∧
    (0 ≤ c.animationProgress → c.animationProgress ≤ 1 → (∀ x ∈ ds, 0 ≤ x) →
      0 ≤ (ds.foldl GameAnimationController.advance c).animationProgress ∧
        (ds.foldl GameAnimationController.advance c).animationProgress ≤ 1) ∧
    ((c.advance δ).stateHistory.length < c.stateHistory.length →
      c.animationProgress = 1 ∧ 2 ≤ c.stateHistory.length) ∧
    (1 ≤ c.stateHistory.length → c.animationProgress ≤ 1 → 0 ≤ δ →
      (c.advance δ).animationProgress < c.animationProgress →
      c.animationProgress = 1 ∧
        (c.advance δ).stateHistory.length < c.stateHistory.length) ∧
    (c.stateHistory.length = 2 → 0 ≤ c.animationProgress →
      c.animationProgress ≤ 1 → 0 < δ →
      ∃ n, (GameAnimationController.advanceIter c δ n).animationProgress = 1 ∧
        (GameAnimationController.advanceIter c δ (n + 1)).stateHistory =
          c.stateHistory.drop 1) := by
  refine ⟨fun h => GameAnimationController.advance_len_pos δ h, ?_, ?_, ?_, ?_, ?_⟩
  · rw [GameAnimationController.addState]
    simp
  · intro h0 h1 hds
    exact GameAnimationController.foldl_advance_bounds h0 h1 hds
  · exact GameAnimationController.advance_retire_inv δ
  · intro hlen h1 hδ hd
    exact GameAnimationController.advance_progress_decrease hlen h1 hδ hd
  · intro h2 h0 h1 hδ
    obtain ⟨n, hn⟩ := exists_nat_ge ((1 - c.animationProgress) / (10 * δ))
    have hge : 1 ≤ c.animationProgress + 10 * δ * n := by
      rw [div_le_iff₀ (by positivity : (0:ℚ) < 10 * δ)] at hn
      linarith
    obtain ⟨m, hm1, hm2⟩ := GameAnimationController.advance_reach hδ n c h2 h0 h1 hge
    refine ⟨m, hm1, ?_⟩
    rw [GameAnimationController.advanceIter_succ_last]
    rw [GameAnimationController.advance_eq_shift δ hm1 (by rw [hm2, h2]; decide)]
    show (GameAnimationController.advanceIter c δ m).stateHistory.drop 1 =
      c.stateHistory.drop 1
    rw [hm2]

/-- Witness for `claim9_animation`: from two queued snapshots and
elapsed time 1/10 per call, the player reaches progress 1 and retires the
head. -/
theorem claim9_witness :
    ∃ n, (GameAnimationController.advanceIter animTwo (1/10) n).animationProgress = 1 ∧
      (GameAnimationController.advanceIter animTwo (1/10) (n + 1)).stateHistory =
        animTwo.stateHistory.drop 1 := by
  have h := claim9_animation animTwo (1/10) [] c4Board
  exact h.2.2.2.2.2 (by decide) (by norm_num [animTwo]) (by norm_num [animTwo])
    (by norm_num)
